import Mathlib

/-! # Event queue service: the ring buffer and its HTTP handlers

A shallow embedding of `ringbuffer.go` (the fixed-capacity circular buffer
behind the HTTP event queue) and of the handlers of `main.go`, together with
the properties the specification states about them.

Conventions of the embedding.

* Go's `int` is taken to be the 64-bit two's-complement integer; values are
  Lean `Int`s and every `+ 1` / `- 1` / `%` of the source is followed by
  `wrapInt`, the reduction into `[-2^63, 2^63)`.
* A slice `[]interface{}` is a `List Value`; `len` is `goLen`.
* A method with receiver `rb *RingBuffer` is a function from the receiver's
  state to its results paired with the receiver's state afterwards.
* A run-time panic of Go (index out of range, integer divide by zero,
  `make` with a length out of range, a failed type assertion) is the
  `Except.error` result.
* The handlers of `main.go` are functions from the buffer state, the request
  and the `http.ResponseWriter` to the writer and the buffer state
  afterwards. The libraries they call are outside the repository:
  `encoding/json` is a parameter (`JsonCodec`), the `ResponseWriter` follows
  `net/http` (the first `WriteHeader` wins, a `Write` before it implies
  status 200). Logging is left out.
* Two goroutines inside `Enqueue` run its four statements one at a time on
  the shared state, in the order a schedule gives (`interleave`); a goroutine
  running alone does what `Enqueue` does (`interleave_alone`).
-/

set_option autoImplicit false

namespace EventQueue

/-! ## Data model -/

/-- A Go `interface{}` value as far as this program produces them: the zero
value `nil` (what `make` fills the slots with), an `int` (what the unit test
enqueues) or a `string` (what the HTTP handler enqueues). -/
inductive Value where
  | nil
  | int (n : Int)
  | str (s : String)
  deriving DecidableEq, Repr

/-- The run-time panics the code of `ringbuffer.go` and of the handlers in
`main.go` can raise; the last one is the failed type assertion
`item.(string)`. -/
inductive Panic where
  | makeSliceLenOutOfRange
  | indexOutOfRange
  | integerDivideByZero
  | interfaceConversion
  deriving DecidableEq, Repr

/-- The struct `RingBuffer` of `ringbuffer.go`. -/
structure RingBuffer where
  buffer : List Value
  size : Int
  head : Int
  tail : Int
  deriving DecidableEq, Repr

/-- The largest value of Go's 64-bit `int`. -/
def maxInt : Int := 9223372036854775807

/-- Two's-complement reduction of an integer result into `[-2^63, 2^63)`. -/
def wrapInt (x : Int) : Int :=
  (x + 9223372036854775808) % 18446744073709551616 - 9223372036854775808

/-- Go's `len` of a slice. -/
def goLen (s : List Value) : Int := (s.length : Int)

/-- Go's `a % b` on `int`: the remainder of the division truncated towards
zero; panics when the divisor is zero. -/
def goRem (a b : Int) : Except Panic Int :=
  if b = 0 then Except.error Panic.integerDivideByZero
  else Except.ok (wrapInt (Int.tmod a b))

/-- The message of the error `Enqueue` returns. -/
def errFull : String := "error: cannot enqueue to a full buffer"

/-- The message of the error `Dequeue` returns. -/
def errEmpty : String := "error: cannot dequeue from an empty buffer"

/-! ## Operations (`ringbuffer.go`) -/

/-- The largest length `make([]interface{}, n)` accepts. The Go runtime
(`runtime.makeslice`, outside the repository) panics with "makeslice: len out
of range" when `n` is negative or when `n` elements take more than `maxAlloc`
bytes; on a 64-bit platform `maxAlloc` is `2^48` and an `interface{}` value
takes 16 bytes, which leaves `2^44` elements. -/
def maxSliceLen : Int := 17592186044416

/-- `NewRingBuffer(capacity)`: `make([]interface{}, capacity)` panics on a
negative length and on a length above `maxSliceLen`, and otherwise yields
`capacity` slots holding `nil`. Running out of memory for a length that
`make` accepts is a fatal error of the runtime, not a panic, and is outside
the model. -/
def NewRingBuffer (capacity : Int) : Except Panic RingBuffer :=
  if capacity < 0 ∨ maxSliceLen < capacity then Except.error Panic.makeSliceLenOutOfRange
  else Except.ok
    { buffer := List.replicate capacity.toNat Value.nil
      size := 0
      head := 0
      tail := 0 }

/-- `rb.Enqueue(item)`: the returned error is `none` for Go's `nil` error and
`some msg` for `errors.New(msg)`. -/
def Enqueue (rb : RingBuffer) (item : Value) : Except Panic (Option String × RingBuffer) :=
  if rb.size = goLen rb.buffer then
    Except.ok (some errFull, rb)
  else if rb.tail < 0 ∨ goLen rb.buffer ≤ rb.tail then
    Except.error Panic.indexOutOfRange
  else
    let buffer := rb.buffer.set rb.tail.toNat item
    match goRem (wrapInt (rb.tail + 1)) (goLen buffer) with
    | Except.error p => Except.error p
    | Except.ok tail =>
      Except.ok (none,
        { buffer := buffer
          size := wrapInt (rb.size + 1)
          head := rb.head
          tail := tail })

/-- `rb.Dequeue()`: returns the item, the error, and the state afterwards. -/
def Dequeue (rb : RingBuffer) : Except Panic ((Value × Option String) × RingBuffer) :=
  if rb.size = 0 then
    Except.ok ((Value.nil, some errEmpty), rb)
  else if rb.head < 0 ∨ goLen rb.buffer ≤ rb.head then
    Except.error Panic.indexOutOfRange
  else
    let item := rb.buffer.getD rb.head.toNat Value.nil
    match goRem (wrapInt (rb.head + 1)) (goLen rb.buffer) with
    | Except.error p => Except.error p
    | Except.ok head =>
      Except.ok ((item, none),
        { buffer := rb.buffer
          size := wrapInt (rb.size - 1)
          head := head
          tail := rb.tail })

/-- `rb.Size()`. -/
def Size (rb : RingBuffer) : Int × RingBuffer := (rb.size, rb)

/-- `rb.Capacity()`. -/
def Capacity (rb : RingBuffer) : Int × RingBuffer := (goLen rb.buffer, rb)

/-- `rb.IsEmpty()`. -/
def IsEmpty (rb : RingBuffer) : Bool × RingBuffer := (decide (rb.size = 0), rb)

/-- `rb.IsFull()`. -/
def IsFull (rb : RingBuffer) : Bool × RingBuffer := (decide (rb.size = goLen rb.buffer), rb)

/-! ## Sequences of calls -/

/-- One call made by a client of the buffer. -/
inductive Call where
  | enqueue (item : Value)
  | dequeue
  deriving DecidableEq, Repr

/-- What a call returned. -/
inductive Reply where
  | enqueued (err : Option String)
  | dequeued (item : Value) (err : Option String)
  deriving DecidableEq, Repr

/-- Performs one call. -/
def step (rb : RingBuffer) : Call → Except Panic (Reply × RingBuffer)
  | Call.enqueue item =>
    match Enqueue rb item with
    | Except.error p => Except.error p
    | Except.ok (err, rb') => Except.ok (Reply.enqueued err, rb')
  | Call.dequeue =>
    match Dequeue rb with
    | Except.error p => Except.error p
    | Except.ok ((item, err), rb') => Except.ok (Reply.dequeued item err, rb')

/-- Performs the calls in order, collecting what each returned; a panic
aborts the run. -/
def run (rb : RingBuffer) : List Call → Except Panic (List Reply × RingBuffer)
  | [] => Except.ok ([], rb)
  | c :: cs =>
    match step rb c with
    | Except.error p => Except.error p
    | Except.ok (r, rb') =>
      match run rb' cs with
      | Except.error p => Except.error p
      | Except.ok (rs, rb'') => Except.ok (r :: rs, rb'')

/-- Performs the calls on a fresh `NewRingBuffer(capacity)`. -/
def runNew (capacity : Int) (calls : List Call) : Except Panic (List Reply × RingBuffer) :=
  match NewRingBuffer capacity with
  | Except.error p => Except.error p
  | Except.ok rb => run rb calls

/-- The states some sequence of `Enqueue`/`Dequeue` calls leads to from
`NewRingBuffer(capacity)`. -/
def Reachable (capacity : Int) (rb : RingBuffer) : Prop :=
  ∃ calls replies, runNew capacity calls = Except.ok (replies, rb)

/-- The queue the buffer holds: the `size` slot values read from `head`
walking forward modulo the capacity. -/
def contents (rb : RingBuffer) : List Value :=
  (List.range rb.size.toNat).map
    (fun (k : Nat) => rb.buffer.getD ((rb.head + (k : Int)) % goLen rb.buffer).toNat Value.nil)

/-- The representation invariant of a buffer of the given capacity. -/
structure Inv (capacity : Int) (rb : RingBuffer) : Prop where
  len : goLen rb.buffer = capacity
  capLe : capacity ≤ maxInt
  sizeNonneg : 0 ≤ rb.size
  sizeLe : rb.size ≤ capacity
  idx : 0 < capacity →
    0 ≤ rb.head ∧ rb.head < capacity ∧ 0 ≤ rb.tail ∧ rb.tail < capacity ∧
      rb.tail = (rb.head + rb.size) % capacity

/-- The state a successful `Enqueue` leads to. -/
def afterEnqueue (rb : RingBuffer) (item : Value) : RingBuffer :=
  { buffer := rb.buffer.set rb.tail.toNat item
    size := rb.size + 1
    head := rb.head
    tail := (rb.tail + 1) % goLen rb.buffer }

/-- The state a successful `Dequeue` leads to. -/
def afterDequeue (rb : RingBuffer) : RingBuffer :=
  { buffer := rb.buffer
    size := rb.size - 1
    head := (rb.head + 1) % goLen rb.buffer
    tail := rb.tail }

/-- The calls `Enqueue(x)` for the given values, in order. -/
def enqueueCalls (xs : List Value) : List Call := xs.map Call.enqueue

/-- The given number of `Dequeue()` calls. -/
def dequeueCalls (n : Nat) : List Call := List.replicate n Call.dequeue

/-- What `Enqueue` returns for each of the values when every call succeeds. -/
def enqueuedOk (xs : List Value) : List Reply := xs.map (fun _ => Reply.enqueued none)

/-- What `Dequeue` returns when the calls succeed and yield the given values
in order. -/
def dequeuedOk (xs : List Value) : List Reply := xs.map (fun x => Reply.dequeued x none)

/-- An `Enqueue` call that returned the `nil` error. -/
def Reply.isOkEnqueue : Reply → Bool
  | Reply.enqueued none => true
  | _ => false

/-- A `Dequeue` call that returned the `nil` error. -/
def Reply.isOkDequeue : Reply → Bool
  | Reply.dequeued _ none => true
  | _ => false

/-- The number of successful `Enqueue` calls among the replies. -/
def okEnqueues (rs : List Reply) : Int := (rs.countP Reply.isOkEnqueue : Nat)

/-- The number of successful `Dequeue` calls among the replies. -/
def okDequeues (rs : List Reply) : Int := (rs.countP Reply.isOkDequeue : Nat)

/-- The specification's bounded list queue, `Enqueue`: a queue holding
`capacity` values rejects the value with the full-buffer error and stays as
it is; any other queue accepts it at its end. -/
def specEnqueue (capacity : Int) (q : List Value) (x : Value) : Option String × List Value :=
  if (q.length : Int) = capacity then (some errFull, q) else (none, q ++ [x])

/-- The specification's bounded list queue, `Dequeue`: the empty queue
yields no item and the empty-buffer error; any other queue yields its first
value and keeps the rest. -/
def specDequeue (q : List Value) : (Value × Option String) × List Value :=
  match q with
  | [] => ((Value.nil, some errEmpty), [])
  | v :: rest => ((v, none), rest)

/-- The reply of a call that fails: the full-buffer error for `Enqueue`, no
item and the empty-buffer error for `Dequeue`. -/
def failedReply : Call → Reply
  | Call.enqueue _ => Reply.enqueued (some errFull)
  | Call.dequeue => Reply.dequeued Value.nil (some errEmpty)

/-! ## The HTTP layer (`main.go`) -/

/-- The part of an `http.Request` the handlers read: the method and the
body. -/
structure Request where
  method : String
  body : String
  deriving DecidableEq, Repr

/-- An `http.ResponseWriter` as `net/http` and `httptest.ResponseRecorder`
implement it: whether the status line has been written, the status code
(200 until one is written), the headers the handler set, the body written so
far, and in `sniffed` the data from which the library derives the
`Content-Type` when the handler set none: the response then carries
`Content-Type: http.DetectContentType(data)`, a function of the library that
is not evaluated here. -/
structure ResponseWriter where
  wroteHeader : Bool
  code : Int
  header : List (String × String)
  sniffed : Option String
  body : String
  deriving DecidableEq, Repr

/-- The writer a handler is given for a new request. -/
def ResponseWriter.fresh : ResponseWriter :=
  { wroteHeader := false, code := 200, header := [], sniffed := none, body := "" }

/-- Whether the headers leave the `Content-Type` to be derived from the body:
neither a `Content-Type` nor a `Transfer-Encoding` is set. -/
def ResponseWriter.needsSniff (w : ResponseWriter) : Bool :=
  !(w.header.any (fun kv =>
      kv.1 == "Content-Type" || (kv.1 == "Transfer-Encoding" && kv.2 != "")))

/-- `w.Header().Set(key, value)`. -/
def ResponseWriter.setHeader (w : ResponseWriter) (key value : String) : ResponseWriter :=
  { w with header := (key, value) :: w.header.filter (fun kv => kv.1 != key) }

/-- `w.WriteHeader(code)`: only the first call takes effect. -/
def ResponseWriter.WriteHeader (w : ResponseWriter) (code : Int) : ResponseWriter :=
  if w.wroteHeader then w else { w with wroteHeader := true, code := code }

/-- `w.Write(data)`: when no status was written yet, the `Content-Type` is
derived from `data` if the handler set none, and status 200 is written; then
the data is appended to the body. -/
def ResponseWriter.Write (w : ResponseWriter) (data : String) : ResponseWriter :=
  let w1 :=
    if w.wroteHeader then w
    else
      let w0 := if w.needsSniff then { w with sniffed := some data } else w
      w0.WriteHeader 200
  { w1 with body := w1.body ++ data }

/-- `http.Error(w, error, code)`: sets the plain-text headers, writes the
status and the message followed by a newline. -/
def httpError (w : ResponseWriter) (error : String) (code : Int) : ResponseWriter :=
  (((w.setHeader "Content-Type" "text/plain; charset=utf-8").setHeader
    "X-Content-Type-Options" "nosniff").WriteHeader code).Write (error ++ "\n")

/-- `http.MethodGet`. -/
def MethodGet : String := "GET"

/-- `http.MethodPost`. -/
def MethodPost : String := "POST"

/-- `http.StatusOK`. -/
def StatusOK : Int := 200

/-- `http.StatusCreated`. -/
def StatusCreated : Int := 201

/-- `http.StatusBadRequest`. -/
def StatusBadRequest : Int := 400

/-- `http.StatusMethodNotAllowed`. -/
def StatusMethodNotAllowed : Int := 405

/-- `http.StatusInternalServerError`. -/
def StatusInternalServerError : Int := 500

/-- A value of a field of one of the response structs. -/
inductive JsonValue where
  | str (s : String)
  | int (n : Int)
  | bool (b : Bool)
  deriving DecidableEq, Repr

/-- A response struct as `encoding/json` sees it: the fields in declaration
order, each under the name of its `json` tag. -/
abbrev JsonObject := List (String × JsonValue)

/-- The struct `EnqueueRequest`. -/
structure EnqueueRequest where
  Event : String
  deriving DecidableEq, Repr

/-- The struct `EnqueueResponse`. -/
structure EnqueueResponse where
  Message : String
  Event : String
  deriving DecidableEq, Repr

/-- The struct `DequeueResponse`. -/
structure DequeueResponse where
  Message : String
  Event : String
  deriving DecidableEq, Repr

/-- The struct `StatusResponse`. -/
structure StatusResponse where
  Status : String
  Size : Int
  Capacity : Int
  IsEmpty : Bool
  IsFull : Bool
  deriving DecidableEq, Repr

/-- The struct `SizeResponse`. -/
structure SizeResponse where
  Size : Int
  deriving DecidableEq, Repr

/-- The struct `CapacityResponse`. -/
structure CapacityResponse where
  Capacity : Int
  deriving DecidableEq, Repr

/-- The struct `IsEmptyResponse`. -/
structure IsEmptyResponse where
  IsEmpty : Bool
  deriving DecidableEq, Repr

/-- The struct `IsFullResponse`. -/
structure IsFullResponse where
  IsFull : Bool
  deriving DecidableEq, Repr

/-- The fields of `EnqueueResponse` under their `json` tags. -/
def EnqueueResponse.toJson (r : EnqueueResponse) : JsonObject :=
  [("message", JsonValue.str r.Message), ("event", JsonValue.str r.Event)]

/-- The fields of `DequeueResponse` under their `json` tags. -/
def DequeueResponse.toJson (r : DequeueResponse) : JsonObject :=
  [("message", JsonValue.str r.Message), ("event", JsonValue.str r.Event)]

/-- The fields of `StatusResponse` under their `json` tags. -/
def StatusResponse.toJson (r : StatusResponse) : JsonObject :=
  [("status", JsonValue.str r.Status), ("size", JsonValue.int r.Size),
    ("capacity", JsonValue.int r.Capacity), ("isEmpty", JsonValue.bool r.IsEmpty),
    ("isFull", JsonValue.bool r.IsFull)]

/-- The fields of `SizeResponse` under their `json` tags. -/
def SizeResponse.toJson (r : SizeResponse) : JsonObject := [("size", JsonValue.int r.Size)]

/-- The fields of `CapacityResponse` under their `json` tags. -/
def CapacityResponse.toJson (r : CapacityResponse) : JsonObject :=
  [("capacity", JsonValue.int r.Capacity)]

/-- The fields of `IsEmptyResponse` under their `json` tags. -/
def IsEmptyResponse.toJson (r : IsEmptyResponse) : JsonObject :=
  [("isEmpty", JsonValue.bool r.IsEmpty)]

/-- The fields of `IsFullResponse` under their `json` tags. -/
def IsFullResponse.toJson (r : IsFullResponse) : JsonObject :=
  [("isFull", JsonValue.bool r.IsFull)]

/-- The library `encoding/json`, which is not part of the repository:
`decodeEnqueueRequest body` is what `json.NewDecoder(r.Body).Decode(&req)`
yields for `req : EnqueueRequest` (the error text or the decoded struct),
`marshal` is the encoding of a struct (the error text or the JSON text). -/
structure JsonCodec where
  decodeEnqueueRequest : String → Except String EnqueueRequest
  marshal : JsonObject → Except String String

/-- `json.NewEncoder(w).Encode(v)`: writes the encoding of `v` followed by a
newline; when the encoding fails nothing is written and the error is
returned. -/
def encode (codec : JsonCodec) (w : ResponseWriter) (v : JsonObject) :
    ResponseWriter × Option String :=
  match codec.marshal v with
  | Except.error err => (w, some err)
  | Except.ok text => (w.Write (text ++ "\n"), none)

/-- The tail every handler ends with: `Encode(response)` and, when it
returns an error, `w.WriteHeader(http.StatusInternalServerError)`. -/
def encodeResponse (codec : JsonCodec) (w : ResponseWriter) (v : JsonObject) : ResponseWriter :=
  match encode codec w v with
  | (w1, some _) => w1.WriteHeader StatusInternalServerError
  | (w1, none) => w1

/-- `enqueueHandler(rb)` applied to a writer and a request. -/
def enqueueHandler (codec : JsonCodec) (rb : RingBuffer) (w : ResponseWriter) (r : Request) :
    Except Panic (ResponseWriter × RingBuffer) :=
  if r.method ≠ MethodPost then
    Except.ok (httpError w "Method not allowed" StatusMethodNotAllowed, rb)
  else
    match codec.decodeEnqueueRequest r.body with
    | Except.error err => Except.ok (httpError w err StatusBadRequest, rb)
    | Except.ok req =>
      match Enqueue rb (Value.str req.Event) with
      | Except.error p => Except.error p
      | Except.ok (some err, rb1) =>
        Except.ok (httpError w err StatusInternalServerError, rb1)
      | Except.ok (none, rb1) =>
        let response : EnqueueResponse :=
          { Message := "Successfully enqueued event", Event := req.Event }
        let w1 := w.setHeader "Content-Type" "application/json"
        let w2 := w1.WriteHeader StatusCreated
        Except.ok (encodeResponse codec w2 response.toJson, rb1)

/-- `dequeueHandler(rb)` applied to a writer and a request; `item.(string)`
panics when the item is not a string. -/
def dequeueHandler (codec : JsonCodec) (rb : RingBuffer) (w : ResponseWriter) (r : Request) :
    Except Panic (ResponseWriter × RingBuffer) :=
  if r.method ≠ MethodGet then
    Except.ok (httpError w "Method not allowed" StatusMethodNotAllowed, rb)
  else
    match Dequeue rb with
    | Except.error p => Except.error p
    | Except.ok ((_, some err), rb1) =>
      Except.ok (httpError w err StatusInternalServerError, rb1)
    | Except.ok ((item, none), rb1) =>
      match item with
      | Value.str event =>
        let response : DequeueResponse :=
          { Message := "Successfully dequeued event", Event := event }
        let w1 := w.setHeader "Content-Type" "application/json"
        Except.ok (encodeResponse codec w1 response.toJson, rb1)
      | _ => Except.error Panic.interfaceConversion

/-- `handleStatus(rb)` applied to a writer and a request. -/
def handleStatus (codec : JsonCodec) (rb : RingBuffer) (w : ResponseWriter) (r : Request) :
    Except Panic (ResponseWriter × RingBuffer) :=
  if r.method ≠ MethodGet then
    Except.ok (httpError w "Method not allowed" StatusMethodNotAllowed, rb)
  else
    let (size, rb1) := Size rb
    let (capacity, rb2) := Capacity rb1
    let (isEmpty, rb3) := IsEmpty rb2
    let (isFull, rb4) := IsFull rb3
    let response : StatusResponse :=
      { Status := "OK", Size := size, Capacity := capacity, IsEmpty := isEmpty,
        IsFull := isFull }
    let w1 := w.setHeader "Content-Type" "application/json"
    let w2 := w1.WriteHeader StatusOK
    Except.ok (encodeResponse codec w2 response.toJson, rb4)

/-- `handleSize(rb)` applied to a writer and a request. -/
def handleSize (codec : JsonCodec) (rb : RingBuffer) (w : ResponseWriter) (r : Request) :
    Except Panic (ResponseWriter × RingBuffer) :=
  if r.method ≠ MethodGet then
    Except.ok (httpError w "Method not allowed" StatusMethodNotAllowed, rb)
  else
    let (size, rb1) := Size rb
    let response : SizeResponse := { Size := size }
    Except.ok (encodeResponse codec w response.toJson, rb1)

/-- `handleCapacity(rb)` applied to a writer and a request. -/
def handleCapacity (codec : JsonCodec) (rb : RingBuffer) (w : ResponseWriter) (r : Request) :
    Except Panic (ResponseWriter × RingBuffer) :=
  if r.method ≠ MethodGet then
    Except.ok (httpError w "Method not allowed" StatusMethodNotAllowed, rb)
  else
    let (capacity, rb1) := Capacity rb
    let response : CapacityResponse := { Capacity := capacity }
    Except.ok (encodeResponse codec w response.toJson, rb1)

/-- `handleIsEmpty(rb)` applied to a writer and a request. -/
def handleIsEmpty (codec : JsonCodec) (rb : RingBuffer) (w : ResponseWriter) (r : Request) :
    Except Panic (ResponseWriter × RingBuffer) :=
  if r.method ≠ MethodGet then
    Except.ok (httpError w "Method not allowed" StatusMethodNotAllowed, rb)
  else
    let (isEmpty, rb1) := IsEmpty rb
    let response : IsEmptyResponse := { IsEmpty := isEmpty }
    Except.ok (encodeResponse codec w response.toJson, rb1)

/-- `handleIsFull(rb)` applied to a writer and a request. -/
def handleIsFull (codec : JsonCodec) (rb : RingBuffer) (w : ResponseWriter) (r : Request) :
    Except Panic (ResponseWriter × RingBuffer) :=
  if r.method ≠ MethodGet then
    Except.ok (httpError w "Method not allowed" StatusMethodNotAllowed, rb)
  else
    let (isFull, rb1) := IsFull rb
    let response : IsFullResponse := { IsFull := isFull }
    Except.ok (encodeResponse codec w response.toJson, rb1)

/-- The seven routes `setupServer` registers. -/
inductive Endpoint where
  | enqueue
  | dequeue
  | status
  | size
  | capacity
  | isEmpty
  | isFull
  deriving DecidableEq, Repr

/-- The handler `setupServer` registers for the route. -/
def Endpoint.handler (codec : JsonCodec) :
    Endpoint → RingBuffer → ResponseWriter → Request → Except Panic (ResponseWriter × RingBuffer)
  | Endpoint.enqueue => enqueueHandler codec
  | Endpoint.dequeue => dequeueHandler codec
  | Endpoint.status => handleStatus codec
  | Endpoint.size => handleSize codec
  | Endpoint.capacity => handleCapacity codec
  | Endpoint.isEmpty => handleIsEmpty codec
  | Endpoint.isFull => handleIsFull codec

/-- The method the handler of the route accepts. -/
def Endpoint.expectedMethod : Endpoint → String
  | Endpoint.enqueue => MethodPost
  | _ => MethodGet

/-- Serves the requests one after the other on the shared buffer, each with
a new writer, collecting the responses; a panic aborts the run. -/
def serve (codec : JsonCodec) (rb : RingBuffer) :
    List (Endpoint × Request) → Except Panic (List ResponseWriter × RingBuffer)
  | [] => Except.ok ([], rb)
  | (ep, r) :: rest =>
    match ep.handler codec rb ResponseWriter.fresh r with
    | Except.error p => Except.error p
    | Except.ok (w, rb1) =>
      match serve codec rb1 rest with
      | Except.error p => Except.error p
      | Except.ok (ws, rb2) => Except.ok (w :: ws, rb2)

/-- Serves the requests on a new `NewRingBuffer(capacity)`, as `setupServer`
shares one buffer among the handlers. -/
def serveNew (codec : JsonCodec) (capacity : Int) (reqs : List (Endpoint × Request)) :
    Except Panic (List ResponseWriter × RingBuffer) :=
  match NewRingBuffer capacity with
  | Except.error p => Except.error p
  | Except.ok rb => serve codec rb reqs

/-- The buffer states that serving some sequence of requests leads to. -/
def Served (codec : JsonCodec) (capacity : Int) (rb : RingBuffer) : Prop :=
  ∃ reqs ws, serveNew codec capacity reqs = Except.ok (ws, rb)

/-- Every value the queue holds is a string. -/
def AllStrings (rb : RingBuffer) : Prop :=
  ∀ v, v ∈ contents rb → ∃ s, v = Value.str s

/-! ## Two goroutines inside `Enqueue` -/

/-- Where a goroutine executing `Enqueue` stands: before the test of
`rb.size == len(rb.buffer)`, before `rb.buffer[rb.tail] = item`, before
`rb.tail = (rb.tail + 1) % len(rb.buffer)`, before `rb.size++`, or after its
`return` with the error it returned. -/
inductive EnqueuePc where
  | check
  | store
  | advance
  | increment
  | returned (err : Option String)
  deriving DecidableEq, Repr

/-- A goroutine executing `rb.Enqueue(item)`. -/
structure EnqueueThread where
  item : Value
  pc : EnqueuePc
  deriving DecidableEq, Repr

/-- The goroutine at the entry of `rb.Enqueue(item)`. -/
def EnqueueThread.start (item : Value) : EnqueueThread :=
  { item := item, pc := EnqueuePc.check }

/-- The next statement of a goroutine inside `Enqueue`, run on the shared
buffer. The function takes no lock, so the state the statement finds is
whatever the other goroutine left. A goroutine that has returned does
nothing. -/
def enqueueStep (rb : RingBuffer) (t : EnqueueThread) :
    Except Panic (RingBuffer × EnqueueThread) :=
  match t.pc with
  | EnqueuePc.check =>
    if rb.size = goLen rb.buffer then
      Except.ok (rb, { t with pc := EnqueuePc.returned (some errFull) })
    else Except.ok (rb, { t with pc := EnqueuePc.store })
  | EnqueuePc.store =>
    if rb.tail < 0 ∨ goLen rb.buffer ≤ rb.tail then Except.error Panic.indexOutOfRange
    else
      Except.ok ({ rb with buffer := rb.buffer.set rb.tail.toNat t.item },
        { t with pc := EnqueuePc.advance })
  | EnqueuePc.advance =>
    match goRem (wrapInt (rb.tail + 1)) (goLen rb.buffer) with
    | Except.error p => Except.error p
    | Except.ok tail => Except.ok ({ rb with tail := tail }, { t with pc := EnqueuePc.increment })
  | EnqueuePc.increment =>
    Except.ok ({ rb with size := wrapInt (rb.size + 1) },
      { t with pc := EnqueuePc.returned none })
  | EnqueuePc.returned _ => Except.ok (rb, t)

/-- Which of the two goroutines runs its next statement. -/
inductive Turn where
  | first
  | second
  deriving DecidableEq, Repr

/-- Runs two goroutines on the shared buffer, statement by statement in the
order of the schedule. -/
def interleave (rb : RingBuffer) (t1 t2 : EnqueueThread) :
    List Turn → Except Panic (RingBuffer × EnqueueThread × EnqueueThread)
  | [] => Except.ok (rb, t1, t2)
  | Turn.first :: rest =>
    match enqueueStep rb t1 with
    | Except.error p => Except.error p
    | Except.ok (rb1, t1') => interleave rb1 t1' t2 rest
  | Turn.second :: rest =>
    match enqueueStep rb t2 with
    | Except.error p => Except.error p
    | Except.ok (rb1, t2') => interleave rb1 t1 t2' rest

/-- The schedule in which the two goroutines alternate statement by
statement: both pass the test, both store at the same `tail`, and only then
does either advance it. -/
def raceSchedule : List Turn :=
  [Turn.first, Turn.second, Turn.first, Turn.second, Turn.first, Turn.second, Turn.first,
    Turn.second]

/-- The schedule in which the first goroutine runs `Enqueue` to its end
alone. -/
def aloneSchedule : List Turn := [Turn.first, Turn.first, Turn.first, Turn.first]

/-- What `encoding/json` writes for one character of a string, with the HTML
escaping a `json.Encoder` has on by default: the quote (34) and the backslash
(92) behind a backslash, the short escapes of the control characters 8, 9,
10, 12 and 13, the `\u00XX` form for the other control characters and for
`<` (60), `>` (62) and `&` (38), the `\u` form for U+2028 and U+2029, and
every other character as it is. -/
def jsonEscapeChar (c : Char) : String :=
  if c.toNat = 34 then "\\\""
  else if c.toNat = 92 then "\\\\"
  else if c.toNat = 8 then "\\b"
  else if c.toNat = 9 then "\\t"
  else if c.toNat = 10 then "\\n"
  else if c.toNat = 12 then "\\f"
  else if c.toNat = 13 then "\\r"
  else if c.toNat < 32 ∨ c.toNat = 60 ∨ c.toNat = 62 ∨ c.toNat = 38 then
    "\\u00" ++ String.singleton (Nat.digitChar (c.toNat / 16))
      ++ String.singleton (Nat.digitChar (c.toNat % 16))
  else if c.toNat = 8232 then "\\u2028"
  else if c.toNat = 8233 then "\\u2029"
  else String.singleton c

/-- A string as a JSON string literal. -/
def jsonQuote (s : String) : String :=
  "\"" ++ String.join (s.data.map jsonEscapeChar) ++ "\""

/-- A stand-in for `encoding/json` in the examples below. The decoder is a
table of the library's answers on the bodies the examples post: the request
of `http_test.go` with and without the space after the colon decodes to the
event "event1", the body "invalid json" of the test is rejected with the
error the test expects, and any other body is answered like the empty one,
with "EOF". The encoder renders a struct field by field as a JSON object. -/
def exampleCodec : JsonCodec where
  decodeEnqueueRequest := fun body =>
    if body = "\x7b\"event\": \"event1\"\x7d" ∨ body = "\x7b\"event\":\"event1\"\x7d" then
      Except.ok { Event := "event1" }
    else if body = "invalid json" then
      Except.error "invalid character \x27i\x27 looking for beginning of value"
    else Except.error "EOF"
  marshal := fun fields =>
    Except.ok ("\x7b" ++ ",".intercalate (fields.map (fun kv =>
      jsonQuote kv.1 ++ ":" ++
        (match kv.2 with
          | JsonValue.str s => jsonQuote s
          | JsonValue.int n => toString n
          | JsonValue.bool b => toString b))) ++ "\x7d")

/-! ## Arithmetic of Go's `int` -/

theorem wrapInt_of_range (x : Int) (h1 : -9223372036854775808 ≤ x)
    (h2 : x ≤ 9223372036854775807) : wrapInt x = x := by
  unfold wrapInt
  omega

theorem goRem_succ (t n : Int) (h0 : 0 ≤ t) (h1 : t < n) (h2 : n ≤ maxInt) :
    goRem (wrapInt (t + 1)) n = Except.ok ((t + 1) % n) := by
  unfold maxInt at h2
  have hn : n ≠ 0 := by omega
  have hw : wrapInt (t + 1) = t + 1 := wrapInt_of_range _ (by omega) (by omega)
  have hm : Int.tmod (t + 1) n = (t + 1) % n := Int.tmod_eq_emod (by omega) (by omega)
  have hlt : (t + 1) % n < n := Int.emod_lt_of_pos _ (by omega)
  have hge : 0 ≤ (t + 1) % n := Int.emod_nonneg _ hn
  unfold goRem
  rw [if_neg hn, hw, hm, wrapInt_of_range _ (by omega) (by omega)]

/-! ## The two outcomes of each operation -/

theorem Enqueue_full (rb : RingBuffer) (item : Value) (h : rb.size = goLen rb.buffer) :
    Enqueue rb item = Except.ok (some errFull, rb) := by
  unfold Enqueue
  rw [if_pos h]

theorem Dequeue_empty (rb : RingBuffer) (h : rb.size = 0) :
    Dequeue rb = Except.ok ((Value.nil, some errEmpty), rb) := by
  unfold Dequeue
  rw [if_pos h]

theorem goLen_set (l : List Value) (i : Nat) (v : Value) : goLen (l.set i v) = goLen l := by
  simp [goLen]

theorem Enqueue_ok {capacity : Int} {rb : RingBuffer} (hI : Inv capacity rb) (item : Value)
    (h : rb.size < capacity) :
    Enqueue rb item = Except.ok (none, afterEnqueue rb item) := by
  obtain ⟨hlen, hcap, hs0, hs1, hidx⟩ := hI
  have hpos : 0 < capacity := by omega
  obtain ⟨hh0, hh1, ht0, ht1, _⟩ := hidx hpos
  have hne : ¬ rb.size = goLen rb.buffer := by omega
  have hin : ¬ (rb.tail < 0 ∨ goLen rb.buffer ≤ rb.tail) := by omega
  have hw : wrapInt (rb.size + 1) = rb.size + 1 := by
    unfold maxInt at hcap
    exact wrapInt_of_range _ (by omega) (by omega)
  unfold Enqueue
  rw [if_neg hne, if_neg hin]
  simp only [goLen_set]
  rw [goRem_succ rb.tail (goLen rb.buffer) ht0 (by omega) (by omega), hw]
  rfl

theorem Dequeue_ok {capacity : Int} {rb : RingBuffer} (hI : Inv capacity rb)
    (h : 0 < rb.size) :
    Dequeue rb = Except.ok ((rb.buffer.getD rb.head.toNat Value.nil, none), afterDequeue rb) := by
  obtain ⟨hlen, hcap, hs0, hs1, hidx⟩ := hI
  have hpos : 0 < capacity := by omega
  obtain ⟨hh0, hh1, ht0, ht1, _⟩ := hidx hpos
  have hne : ¬ rb.size = 0 := by omega
  have hin : ¬ (rb.head < 0 ∨ goLen rb.buffer ≤ rb.head) := by omega
  have hw : wrapInt (rb.size - 1) = rb.size - 1 := by
    unfold maxInt at hcap
    exact wrapInt_of_range _ (by omega) (by omega)
  unfold Dequeue
  rw [if_neg hne, if_neg hin]
  simp only []
  rw [goRem_succ rb.head (goLen rb.buffer) hh0 (by omega) (by omega), hw]
  rfl

/-! ## The invariant is established and preserved -/

theorem NewRingBuffer_ok (capacity : Int) (h : 0 ≤ capacity) (h2 : capacity ≤ maxSliceLen) :
    NewRingBuffer capacity = Except.ok ⟨List.replicate capacity.toNat Value.nil, 0, 0, 0⟩ := by
  unfold NewRingBuffer
  rw [if_neg (by omega)]

theorem NewRingBuffer_panics (capacity : Int) (h : capacity < 0 ∨ maxSliceLen < capacity) :
    NewRingBuffer capacity = Except.error Panic.makeSliceLenOutOfRange := by
  unfold NewRingBuffer
  rw [if_pos h]

theorem maxSliceLen_le_maxInt : maxSliceLen ≤ maxInt := by decide

theorem Inv_new (capacity : Int) (h0 : 0 ≤ capacity) (h1 : capacity ≤ maxInt) :
    Inv capacity ⟨List.replicate capacity.toNat Value.nil, 0, 0, 0⟩ := by
  refine ⟨?_, h1, ?_, ?_, ?_⟩
  · simp only [goLen, List.length_replicate]
    omega
  · simp
  · simpa using h0
  · intro hpos
    refine ⟨by simp, hpos, by simp, hpos, ?_⟩
    simp

theorem Inv_afterEnqueue {capacity : Int} {rb : RingBuffer} (hI : Inv capacity rb)
    (item : Value) (h : rb.size < capacity) : Inv capacity (afterEnqueue rb item) := by
  obtain ⟨hlen, hcap, hs0, hs1, hidx⟩ := hI
  have hpos : 0 < capacity := by omega
  obtain ⟨hh0, hh1, ht0, ht1, hmod⟩ := hidx hpos
  refine ⟨?_, hcap, ?_, ?_, ?_⟩
  · simp only [afterEnqueue, goLen_set]
    exact hlen
  · simp only [afterEnqueue]
    omega
  · simp only [afterEnqueue]
    omega
  · intro _
    simp only [afterEnqueue, hlen]
    refine ⟨hh0, hh1, Int.emod_nonneg _ (by omega), Int.emod_lt_of_pos _ hpos, ?_⟩
    rw [hmod, Int.emod_add_emod, Int.add_assoc]

theorem Inv_afterDequeue {capacity : Int} {rb : RingBuffer} (hI : Inv capacity rb)
    (h : 0 < rb.size) : Inv capacity (afterDequeue rb) := by
  obtain ⟨hlen, hcap, hs0, hs1, hidx⟩ := hI
  have hpos : 0 < capacity := by omega
  obtain ⟨hh0, hh1, ht0, ht1, hmod⟩ := hidx hpos
  refine ⟨hlen, hcap, ?_, ?_, ?_⟩
  · simp only [afterDequeue]
    omega
  · simp only [afterDequeue]
    omega
  · intro _
    simp only [afterDequeue, hlen]
    refine ⟨Int.emod_nonneg _ (by omega), Int.emod_lt_of_pos _ hpos, ht0, ht1, ?_⟩
    rw [Int.emod_add_emod, hmod]
    congr 1
    omega

/-! ## The queue a state holds -/

theorem contents_length (rb : RingBuffer) : (contents rb).length = rb.size.toNat := by
  simp only [contents, List.length_map, List.length_range]

theorem contents_afterEnqueue {capacity : Int} {rb : RingBuffer} (hI : Inv capacity rb)
    (item : Value) (h : rb.size < capacity) :
    contents (afterEnqueue rb item) = contents rb ++ [item] := by
  obtain ⟨hlen, hcap, hs0, hs1, hidx⟩ := hI
  have hpos : 0 < capacity := by omega
  obtain ⟨hh0, hh1, ht0, ht1, hmod⟩ := hidx hpos
  have hn : (rb.size + 1).toNat = rb.size.toNat + 1 := by omega
  have hlenN : rb.tail.toNat < rb.buffer.length := by
    unfold goLen at hlen
    omega
  simp only [contents, afterEnqueue, goLen_set, hn, List.range_succ, List.map_append,
    List.map_cons, List.map_nil, hlen]
  congr 1
  · apply List.map_congr_left
    intro k hk
    have hk' : (k : Int) < rb.size := by
      have := List.mem_range.mp hk
      omega
    have hne : rb.tail.toNat ≠ ((rb.head + (k : Int)) % capacity).toNat := by
      intro heq
      have h1 : 0 ≤ (rb.head + (k : Int)) % capacity := Int.emod_nonneg _ (by omega)
      have h2 : (rb.head + rb.size) % capacity = (rb.head + (k : Int)) % capacity := by omega
      rw [Int.emod_eq_emod_iff_emod_sub_eq_zero] at h2
      have h3 : (rb.head + rb.size - (rb.head + (k : Int))) % capacity
          = rb.head + rb.size - (rb.head + (k : Int)) :=
        Int.emod_eq_of_lt (by omega) (by omega)
      omega
    simp only [List.getD_eq_getElem?_getD]
    rw [List.getElem?_set_ne hne]
  · have hidxeq : ((rb.head + ((rb.size.toNat : Nat) : Int)) % capacity).toNat = rb.tail.toNat := by
      have : ((rb.size.toNat : Nat) : Int) = rb.size := by omega
      rw [this, ← hmod]
    rw [hidxeq]
    simp only [List.getD_eq_getElem?_getD]
    rw [List.getElem?_set_self hlenN]
    rfl

theorem contents_afterDequeue {capacity : Int} {rb : RingBuffer} (hI : Inv capacity rb)
    (h : 0 < rb.size) :
    contents rb = rb.buffer.getD rb.head.toNat Value.nil :: contents (afterDequeue rb) := by
  obtain ⟨hlen, hcap, hs0, hs1, hidx⟩ := hI
  have hpos : 0 < capacity := by omega
  obtain ⟨hh0, hh1, ht0, ht1, hmod⟩ := hidx hpos
  have hn : rb.size.toNat = (rb.size - 1).toNat + 1 := by omega
  simp only [contents, afterDequeue, hlen]
  rw [hn, List.range_succ_eq_map, List.map_cons, List.map_map]
  congr 1
  · have : (rb.head + ((0 : Nat) : Int)) % capacity = rb.head := by
      simpa using Int.emod_eq_of_lt hh0 hh1
    rw [this]
  · apply List.map_congr_left
    intro k _
    simp only [Function.comp_apply, Int.emod_add_emod, Nat.succ_eq_add_one, Nat.cast_add,
      Nat.cast_one]
    congr 3
    omega

/-! ## Runs from a state satisfying the invariant -/

theorem step_inv {capacity : Int} {rb : RingBuffer} (hI : Inv capacity rb) (c : Call) :
    ∃ r rb', step rb c = Except.ok (r, rb') ∧ Inv capacity rb' := by
  cases c with
  | enqueue item =>
    by_cases h : rb.size = goLen rb.buffer
    · exact ⟨Reply.enqueued (some errFull), rb, by simp only [step, Enqueue_full rb item h], hI⟩
    · have hlt : rb.size < capacity := by
        have := hI.len
        have := hI.sizeLe
        omega
      exact ⟨Reply.enqueued none, _, by simp only [step, Enqueue_ok hI item hlt],
        Inv_afterEnqueue hI item hlt⟩
  | dequeue =>
    by_cases h : rb.size = 0
    · exact ⟨Reply.dequeued Value.nil (some errEmpty), rb, by simp only [step, Dequeue_empty rb h], hI⟩
    · have hlt : 0 < rb.size := by
        have := hI.sizeNonneg
        omega
      exact ⟨Reply.dequeued (rb.buffer.getD rb.head.toNat Value.nil) none, _,
        by simp only [step, Dequeue_ok hI hlt], Inv_afterDequeue hI hlt⟩

theorem run_inv {capacity : Int} (calls : List Call) :
    ∀ {rb : RingBuffer}, Inv capacity rb →
      ∃ rs rb', run rb calls = Except.ok (rs, rb') ∧ Inv capacity rb' := by
  induction calls with
  | nil => intro rb hI; exact ⟨[], rb, rfl, hI⟩
  | cons c cs ih =>
    intro rb hI
    obtain ⟨r, rb1, h1, hI1⟩ := step_inv hI c
    obtain ⟨rs, rb2, h2, hI2⟩ := ih hI1
    exact ⟨r :: rs, rb2, by simp only [run, h1, h2], hI2⟩

theorem runNew_inv (capacity : Int) (h0 : 0 ≤ capacity) (h1 : capacity ≤ maxSliceLen)
    (calls : List Call) :
    ∃ rs rb, runNew capacity calls = Except.ok (rs, rb) ∧ Inv capacity rb := by
  have hmax : capacity ≤ maxInt := le_trans h1 maxSliceLen_le_maxInt
  obtain ⟨rs, rb, h, hI⟩ := run_inv calls (Inv_new capacity h0 hmax)
  exact ⟨rs, rb, by simp only [runNew, NewRingBuffer_ok capacity h0 h1, h], hI⟩

theorem Reachable.inv {capacity : Int} {rb : RingBuffer} (h0 : 0 ≤ capacity)
    (_h1 : capacity ≤ maxInt) (h : Reachable capacity rb) : Inv capacity rb := by
  obtain ⟨calls, replies, hr⟩ := h
  by_cases hle : capacity ≤ maxSliceLen
  · obtain ⟨rs, rb', h', hI⟩ := runNew_inv capacity h0 hle calls
    rw [hr] at h'
    cases h'
    exact hI
  · simp only [runNew, NewRingBuffer_panics capacity (Or.inr (by omega))] at hr
    cases hr

/-! ## Runs of enqueues and of dequeues -/

theorem run_append {rb rb1 rb2 : RingBuffer} {cs1 cs2 : List Call} {rs1 rs2 : List Reply} :
    run rb cs1 = Except.ok (rs1, rb1) → run rb1 cs2 = Except.ok (rs2, rb2) →
      run rb (cs1 ++ cs2) = Except.ok (rs1 ++ rs2, rb2) := by
  induction cs1 generalizing rb rs1 with
  | nil =>
    intro h1 h2
    simp only [run, Except.ok.injEq, Prod.mk.injEq] at h1
    obtain ⟨hr, hb⟩ := h1
    subst hr hb
    simpa using h2
  | cons c cs ih =>
    intro h1 h2
    simp only [run, List.cons_append] at h1 ⊢
    cases hs : step rb c with
    | error p => rw [hs] at h1; cases h1
    | ok v =>
      obtain ⟨r, rb'⟩ := v
      rw [hs] at h1
      simp only at h1 ⊢
      cases hr : run rb' cs with
      | error p => rw [hr] at h1; cases h1
      | ok w =>
        obtain ⟨rs, rb''⟩ := w
        rw [hr] at h1
        simp only [Except.ok.injEq, Prod.mk.injEq] at h1
        obtain ⟨hrs, hb⟩ := h1
        subst hrs hb
        have e := ih hr h2
        simp only [List.append_eq, e, List.cons_append]

theorem run_enqueueCalls {capacity : Int} (xs : List Value) :
    ∀ {rb : RingBuffer}, Inv capacity rb → rb.size + (xs.length : Int) ≤ capacity →
      ∃ rb1, run rb (enqueueCalls xs) = Except.ok (enqueuedOk xs, rb1) ∧ Inv capacity rb1 ∧
        contents rb1 = contents rb ++ xs ∧ rb1.size = rb.size + (xs.length : Int) := by
  induction xs with
  | nil =>
    intro rb hI _
    exact ⟨rb, rfl, hI, by simp, by simp⟩
  | cons x xs ih =>
    intro rb hI hle
    have hlt : rb.size < capacity := by
      simp only [List.length_cons, Nat.cast_add, Nat.cast_one] at hle
      omega
    have hI1 := Inv_afterEnqueue hI x hlt
    have hsz : (afterEnqueue rb x).size = rb.size + 1 := rfl
    obtain ⟨rb1, hrun, hI2, hc, hs⟩ := ih hI1 (by
      simp only [List.length_cons, Nat.cast_add, Nat.cast_one] at hle
      rw [hsz]
      omega)
    refine ⟨rb1, ?_, hI2, ?_, ?_⟩
    · simp only [enqueueCalls, enqueuedOk, List.map_cons, run, step, Enqueue_ok hI x hlt]
      simp only [enqueueCalls, enqueuedOk] at hrun
      rw [hrun]
    · rw [hc, contents_afterEnqueue hI x hlt]
      simp
    · rw [hs, hsz]
      simp only [List.length_cons, Nat.cast_add, Nat.cast_one]
      omega

theorem run_dequeueCalls {capacity : Int} (n : Nat) :
    ∀ {rb : RingBuffer}, Inv capacity rb → (n : Int) ≤ rb.size →
      ∃ rb1, run rb (dequeueCalls n) = Except.ok (dequeuedOk ((contents rb).take n), rb1) ∧
        Inv capacity rb1 ∧ contents rb1 = (contents rb).drop n ∧
        rb1.size = rb.size - (n : Int) ∧ rb1.buffer = rb.buffer := by
  induction n with
  | zero =>
    intro rb hI _
    exact ⟨rb, rfl, hI, by simp, by simp, rfl⟩
  | succ n ih =>
    intro rb hI hle
    have hlt : 0 < rb.size := by
      simp only [Nat.cast_add, Nat.cast_one] at hle
      omega
    have hI1 := Inv_afterDequeue hI hlt
    have hsz : (afterDequeue rb).size = rb.size - 1 := rfl
    have hbuf : (afterDequeue rb).buffer = rb.buffer := rfl
    obtain ⟨rb1, hrun, hI2, hc, hs, hb⟩ := ih hI1 (by
      simp only [Nat.cast_add, Nat.cast_one] at hle
      rw [hsz]
      omega)
    have hcon := contents_afterDequeue hI hlt
    refine ⟨rb1, ?_, hI2, ?_, ?_, ?_⟩
    · simp only [dequeueCalls, List.replicate_succ, run, step, Dequeue_ok hI hlt]
      simp only [dequeueCalls] at hrun
      rw [hrun, hcon]
      rfl
    · rw [hc, hcon]
      rfl
    · rw [hs, hsz]
      simp only [Nat.cast_add, Nat.cast_one]
      omega
    · rw [hb, hbuf]

theorem contents_of_size_zero {rb : RingBuffer} (h : rb.size = 0) : contents rb = [] := by
  simp [contents, h]

/-! ## Size accounting along a run -/

theorem okEnqueues_cons (r : Reply) (rs : List Reply) :
    okEnqueues (r :: rs) = okEnqueues [r] + okEnqueues rs := by
  simp only [okEnqueues, List.countP_cons, List.countP_nil]
  omega

theorem okDequeues_cons (r : Reply) (rs : List Reply) :
    okDequeues (r :: rs) = okDequeues [r] + okDequeues rs := by
  simp only [okDequeues, List.countP_cons, List.countP_nil]
  omega

theorem step_size {capacity : Int} {rb : RingBuffer} (hI : Inv capacity rb) (c : Call) :
    ∃ r rb', step rb c = Except.ok (r, rb') ∧ Inv capacity rb' ∧
      rb'.size = rb.size + okEnqueues [r] - okDequeues [r] := by
  cases c with
  | enqueue item =>
    by_cases h : rb.size = goLen rb.buffer
    · refine ⟨Reply.enqueued (some errFull), rb, by simp only [step, Enqueue_full rb item h],
        hI, ?_⟩
      simp [okEnqueues, okDequeues, Reply.isOkEnqueue, Reply.isOkDequeue]
    · have hlt : rb.size < capacity := by
        have := hI.len
        have := hI.sizeLe
        omega
      refine ⟨Reply.enqueued none, _, by simp only [step, Enqueue_ok hI item hlt],
        Inv_afterEnqueue hI item hlt, ?_⟩
      simp [okEnqueues, okDequeues, Reply.isOkEnqueue, Reply.isOkDequeue, afterEnqueue]
  | dequeue =>
    by_cases h : rb.size = 0
    · refine ⟨Reply.dequeued Value.nil (some errEmpty), rb,
        by simp only [step, Dequeue_empty rb h], hI, ?_⟩
      simp [okEnqueues, okDequeues, Reply.isOkEnqueue, Reply.isOkDequeue]
    · have hlt : 0 < rb.size := by
        have := hI.sizeNonneg
        omega
      refine ⟨Reply.dequeued (rb.buffer.getD rb.head.toNat Value.nil) none, _,
        by simp only [step, Dequeue_ok hI hlt], Inv_afterDequeue hI hlt, ?_⟩
      simp only [okEnqueues, okDequeues, Reply.isOkEnqueue, Reply.isOkDequeue, afterDequeue,
        List.countP_cons, List.countP_nil]
      simp

theorem run_size {capacity : Int} (calls : List Call) :
    ∀ {rb : RingBuffer}, Inv capacity rb →
      ∃ rs rb', run rb calls = Except.ok (rs, rb') ∧ Inv capacity rb' ∧
        rb'.size = rb.size + okEnqueues rs - okDequeues rs := by
  induction calls with
  | nil =>
    intro rb hI
    exact ⟨[], rb, rfl, hI, by simp [okEnqueues, okDequeues]⟩
  | cons c cs ih =>
    intro rb hI
    obtain ⟨r, rb1, h1, hI1, hs1⟩ := step_size hI c
    obtain ⟨rs, rb2, h2, hI2, hs2⟩ := ih hI1
    refine ⟨r :: rs, rb2, by simp only [run, h1, h2], hI2, ?_⟩
    rw [okEnqueues_cons, okDequeues_cons, hs2, hs1]
    omega

/-! ## The claims -/

/-- C1: FIFO order. For every capacity at least 1 and every empty buffer
reachable from `NewRingBuffer(capacity)`, enqueueing any list of at most
`capacity` values and then dequeueing as many times makes every call succeed,
and the dequeues return the values in the order they were enqueued. -/
theorem C1_fifo_order (capacity : Int) (hcap : 1 ≤ capacity) (hmax : capacity ≤ maxInt)
    (rb : RingBuffer) (hreach : Reachable capacity rb) (hempty : (IsEmpty rb).1 = true)
    (xs : List Value) (hN : (xs.length : Int) ≤ capacity) :
    ∃ rb', run rb (enqueueCalls xs ++ dequeueCalls xs.length)
      = Except.ok (enqueuedOk xs ++ dequeuedOk xs, rb') := by
  have hI := hreach.inv (by omega) hmax
  have hs : rb.size = 0 := by simpa [IsEmpty] using hempty
  obtain ⟨rb1, hrun1, hI1, hc1, hs1⟩ := run_enqueueCalls xs hI (by omega)
  obtain ⟨rb2, hrun2, _, _, _, _⟩ := run_dequeueCalls xs.length hI1 (by omega)
  rw [hc1, contents_of_size_zero hs, List.nil_append, List.take_length] at hrun2
  exact ⟨rb2, run_append hrun1 hrun2⟩

/-- Witness for C1: a capacity-3 buffer whose head has moved to index 1 is
filled with three strings, which wrap around the end of the slot array. -/
theorem C1_fifo_order_witness :
    ∃ rb', run ⟨[Value.int 7, Value.nil, Value.nil], 0, 1, 1⟩
        (enqueueCalls [Value.str "a", Value.str "b", Value.str "c"] ++ dequeueCalls 3)
      = Except.ok (enqueuedOk [Value.str "a", Value.str "b", Value.str "c"]
          ++ dequeuedOk [Value.str "a", Value.str "b", Value.str "c"], rb') :=
  C1_fifo_order 3 (by decide) (by decide) ⟨[Value.int 7, Value.nil, Value.nil], 0, 1, 1⟩
    ⟨[Call.enqueue (Value.int 7), Call.dequeue],
      [Reply.enqueued none, Reply.dequeued (Value.int 7) none], rfl⟩
    rfl [Value.str "a", Value.str "b", Value.str "c"] (by decide)

/-- C2: reachable-state invariant. For every capacity at least 1 for which
`NewRingBuffer(capacity)` returns a buffer (`capacity <= maxSliceLen`), every
sequence of calls on that buffer runs without a panic, and
after each call `head` and `tail` lie in `[0, capacity)` and
`tail = (head + size) mod capacity`; so both slot indices are within the
slot array and the divisor of the modulo is not zero. -/
theorem C2_reachable_invariant (capacity : Int) (hcap : 1 ≤ capacity)
    (hmax : capacity ≤ maxSliceLen)
    (calls : List Call) (k : Nat) :
    ∃ replies rb, runNew capacity (calls.take k) = Except.ok (replies, rb) ∧
      0 ≤ rb.head ∧ rb.head < capacity ∧ 0 ≤ rb.tail ∧ rb.tail < capacity ∧
      rb.tail = (rb.head + rb.size) % capacity ∧
      rb.tail < goLen rb.buffer ∧ rb.head < goLen rb.buffer ∧ goLen rb.buffer ≠ 0 := by
  obtain ⟨rs, rb, hrun, hI⟩ := runNew_inv capacity (by omega) hmax (calls.take k)
  obtain ⟨hlen, _, _, _, hidx⟩ := hI
  obtain ⟨h1, h2, h3, h4, h5⟩ := hidx (by omega)
  exact ⟨rs, rb, hrun, h1, h2, h3, h4, h5, by omega, by omega, by omega⟩

/-- Witness for C2: capacity 2 and five calls, among them an `Enqueue` on a
full buffer. -/
theorem C2_reachable_invariant_witness :
    ∃ replies rb, runNew 2 ([Call.enqueue (Value.int 1), Call.enqueue (Value.int 2),
        Call.enqueue (Value.int 3), Call.dequeue, Call.enqueue (Value.int 4)].take 5)
        = Except.ok (replies, rb) ∧
      0 ≤ rb.head ∧ rb.head < 2 ∧ 0 ≤ rb.tail ∧ rb.tail < 2 ∧
      rb.tail = (rb.head + rb.size) % 2 ∧
      rb.tail < goLen rb.buffer ∧ rb.head < goLen rb.buffer ∧ goLen rb.buffer ≠ 0 :=
  C2_reachable_invariant 2 (by decide) (by decide) _ 5

/-- C3: size accounting. For every capacity at least 1 for which
`NewRingBuffer(capacity)` returns a buffer (`capacity <= maxSliceLen`), after
every prefix of every sequence of calls on that buffer `Size()` is the number
of successful `Enqueue` calls minus the number of successful `Dequeue` calls
so far, and `0 <= Size() <= Capacity()`. -/
theorem C3_size_accounting (capacity : Int) (hcap : 1 ≤ capacity)
    (hmax : capacity ≤ maxSliceLen)
    (calls : List Call) (k : Nat) :
    ∃ replies rb, runNew capacity (calls.take k) = Except.ok (replies, rb) ∧
      (Size rb).1 = okEnqueues replies - okDequeues replies ∧
      0 ≤ (Size rb).1 ∧ (Size rb).1 ≤ (Capacity rb).1 := by
  have h0 : 0 ≤ capacity := by omega
  obtain ⟨rs, rb, hrun, hI, hs⟩ := run_size (calls.take k)
    (Inv_new capacity h0 (le_trans hmax maxSliceLen_le_maxInt))
  refine ⟨rs, rb, by simp only [runNew, NewRingBuffer_ok capacity h0 hmax, hrun], ?_, ?_, ?_⟩
  · simp only [Size, hs]
    omega
  · exact hI.sizeNonneg
  · simp only [Size, Capacity, hI.len]
    exact hI.sizeLe

/-- Witness for C3: capacity 1 and the first three of four calls, one of
which is a failing `Enqueue`. -/
theorem C3_size_accounting_witness :
    ∃ replies rb, runNew 1 ([Call.enqueue (Value.int 1), Call.enqueue (Value.int 2),
        Call.dequeue, Call.dequeue].take 3) = Except.ok (replies, rb) ∧
      (Size rb).1 = okEnqueues replies - okDequeues replies ∧
      0 ≤ (Size rb).1 ∧ (Size rb).1 ≤ (Capacity rb).1 :=
  C3_size_accounting 1 (by decide) (by decide) _ 3

/-- C4: `Enqueue` fails exactly when the buffer is full. In every state and for
every item, `Enqueue` returns the error "error: cannot enqueue to a full
buffer" with the state unchanged if and only if `size == capacity`, and it
returns an error at all only then. -/
theorem C4_enqueue_fails_iff_full (rb : RingBuffer) (item : Value) :
    (Enqueue rb item = Except.ok (some errFull, rb) ↔ (Size rb).1 = (Capacity rb).1) ∧
    ((∃ e rb', Enqueue rb item = Except.ok (some e, rb')) ↔ (Size rb).1 = (Capacity rb).1) ∧
    errFull = "error: cannot enqueue to a full buffer" := by
  have key : ∀ e rb', Enqueue rb item = Except.ok (some e, rb') → rb.size = goLen rb.buffer := by
    intro e rb' h
    by_contra hne
    unfold Enqueue at h
    rw [if_neg hne] at h
    split at h
    · cases h
    · simp only at h
      split at h
      · cases h
      · cases h
  refine ⟨⟨fun h => key _ _ h, fun h => Enqueue_full rb item h⟩,
    ⟨fun ⟨e, rb', h⟩ => key e rb' h, fun h => ⟨errFull, rb, Enqueue_full rb item h⟩⟩, rfl⟩

/-- C5: `Dequeue` fails exactly when the buffer is empty. In every state,
`Dequeue` returns the `nil` item and the error "error: cannot dequeue from an
empty buffer" with the state unchanged if and only if `size == 0`, and it
returns an error at all only then. -/
theorem C5_dequeue_fails_iff_empty (rb : RingBuffer) :
    (Dequeue rb = Except.ok ((Value.nil, some errEmpty), rb) ↔ (Size rb).1 = 0) ∧
    ((∃ item e rb', Dequeue rb = Except.ok ((item, some e), rb')) ↔ (Size rb).1 = 0) ∧
    errEmpty = "error: cannot dequeue from an empty buffer" := by
  have key : ∀ item e rb', Dequeue rb = Except.ok ((item, some e), rb') → rb.size = 0 := by
    intro item e rb' h
    by_contra hne
    unfold Dequeue at h
    rw [if_neg hne] at h
    split at h
    · cases h
    · simp only at h
      split at h
      · cases h
      · cases h
  refine ⟨⟨fun h => key _ _ _ h, fun h => Dequeue_empty rb h⟩,
    ⟨fun ⟨item, e, rb', h⟩ => key item e rb' h,
      fun h => ⟨Value.nil, errEmpty, rb, Dequeue_empty rb h⟩⟩, rfl⟩

/-- C6: the ring buffer simulates a bounded list queue. In every state
reachable from `NewRingBuffer(capacity)` with capacity at least 1, `Enqueue`
and `Dequeue` return without a panic and act on `contents` as the list queue
does: a successful `Enqueue(x)` appends `x`, a successful `Dequeue` returns
the first element and leaves the rest, a failing call leaves `contents` as it
is; `Dequeue` never writes to the slot array. -/
theorem C6_simulates_list_queue (capacity : Int) (hcap : 1 ≤ capacity)
    (hmax : capacity ≤ maxInt) (rb : RingBuffer) (hreach : Reachable capacity rb) (x : Value) :
    (∃ err rb', Enqueue rb x = Except.ok (err, rb') ∧
        (err, contents rb') = specEnqueue capacity (contents rb) x) ∧
    (∃ res rb', Dequeue rb = Except.ok (res, rb') ∧
        (res, contents rb') = specDequeue (contents rb) ∧ rb'.buffer = rb.buffer) ∧
    ((contents rb).length : Int) = (Size rb).1 := by
  have hI := hreach.inv (by omega) hmax
  have hs0 := hI.sizeNonneg
  have hs1 := hI.sizeLe
  have hlen : ((contents rb).length : Int) = rb.size := by
    rw [contents_length]
    omega
  refine ⟨?_, ?_, hlen⟩
  · by_cases h : rb.size = goLen rb.buffer
    · refine ⟨some errFull, rb, Enqueue_full rb x h, ?_⟩
      have : ((contents rb).length : Int) = capacity := by rw [hlen, h, hI.len]
      simp only [specEnqueue, if_pos this]
    · have hlt : rb.size < capacity := by
        have := hI.len
        omega
      refine ⟨none, afterEnqueue rb x, Enqueue_ok hI x hlt, ?_⟩
      have : ¬ ((contents rb).length : Int) = capacity := by omega
      simp only [specEnqueue, if_neg this, contents_afterEnqueue hI x hlt]
  · by_cases h : rb.size = 0
    · refine ⟨(Value.nil, some errEmpty), rb, Dequeue_empty rb h, ?_, rfl⟩
      simp only [contents_of_size_zero h, specDequeue]
    · have hlt : 0 < rb.size := by omega
      refine ⟨(rb.buffer.getD rb.head.toNat Value.nil, none), afterDequeue rb,
        Dequeue_ok hI hlt, ?_, rfl⟩
      rw [contents_afterDequeue hI hlt]
      simp only [specDequeue]

/-- Witness for C6: a capacity-2 buffer holding one value in its second slot,
with `tail` wrapped around to index 0 and a stale value left there. -/
theorem C6_simulates_list_queue_witness :
    (∃ err rb', Enqueue ⟨[Value.str "a", Value.str "b"], 1, 1, 0⟩ (Value.str "d")
          = Except.ok (err, rb') ∧
        (err, contents rb') = specEnqueue 2
          (contents ⟨[Value.str "a", Value.str "b"], 1, 1, 0⟩) (Value.str "d")) ∧
    (∃ res rb', Dequeue ⟨[Value.str "a", Value.str "b"], 1, 1, 0⟩ = Except.ok (res, rb') ∧
        (res, contents rb') = specDequeue (contents ⟨[Value.str "a", Value.str "b"], 1, 1, 0⟩) ∧
        rb'.buffer = [Value.str "a", Value.str "b"]) ∧
    ((contents ⟨[Value.str "a", Value.str "b"], 1, 1, 0⟩).length : Int)
      = (Size ⟨[Value.str "a", Value.str "b"], 1, 1, 0⟩).1 :=
  C6_simulates_list_queue 2 (by decide) (by decide) ⟨[Value.str "a", Value.str "b"], 1, 1, 0⟩
    ⟨[Call.enqueue (Value.str "a"), Call.enqueue (Value.str "b"), Call.dequeue],
      [Reply.enqueued none, Reply.enqueued none, Reply.dequeued (Value.str "a") none], rfl⟩
    (Value.str "d")

/-- C7, as amended: construction. For every capacity at least 1 and at most
`maxSliceLen`, the largest length `make` accepts, `NewRingBuffer(capacity)`
returns a buffer with `Capacity() == capacity`, `Size() == 0`,
`IsEmpty() == true`, `IsFull() == false`, `head == 0` and `tail == 0`. -/
theorem C7_construction (capacity : Int) (hcap : 1 ≤ capacity)
    (hlen : capacity ≤ maxSliceLen) :
    ∃ rb, NewRingBuffer capacity = Except.ok rb ∧ (Capacity rb).1 = capacity ∧
      (Size rb).1 = 0 ∧ (IsEmpty rb).1 = true ∧ (IsFull rb).1 = false ∧
      rb.head = 0 ∧ rb.tail = 0 := by
  refine ⟨_, NewRingBuffer_ok capacity (by omega) hlen, ?_, rfl, ?_, ?_, rfl, rfl⟩
  · simp only [Capacity, goLen, List.length_replicate]
    omega
  · simp [IsEmpty]
  · simp only [IsFull, goLen, List.length_replicate, decide_eq_false_iff_not]
    omega

/-- Witness for C7: the capacity 3 of the unit test. -/
theorem C7_construction_witness :
    ∃ rb, NewRingBuffer 3 = Except.ok rb ∧ (Capacity rb).1 = 3 ∧
      (Size rb).1 = 0 ∧ (IsEmpty rb).1 = true ∧ (IsFull rb).1 = false ∧
      rb.head = 0 ∧ rb.tail = 0 :=
  C7_construction 3 (by decide) (by decide)

/-- Counterexample to C7 as stated: the capacity 9223372036854775807 is at
least 1, yet `NewRingBuffer` panics on it in `make` and so returns no buffer
at all, let alone one with `Capacity() == 9223372036854775807`. -/
theorem C7_construction_counterexample :
    (1 : Int) ≤ 9223372036854775807 ∧
    NewRingBuffer 9223372036854775807 = Except.error Panic.makeSliceLenOutOfRange ∧
    ¬ ∃ rb, NewRingBuffer 9223372036854775807 = Except.ok rb ∧
      (Capacity rb).1 = 9223372036854775807 ∧
      (Size rb).1 = 0 ∧ (IsEmpty rb).1 = true ∧ (IsFull rb).1 = false ∧
      rb.head = 0 ∧ rb.tail = 0 := by
  have hp : NewRingBuffer 9223372036854775807 = Except.error Panic.makeSliceLenOutOfRange :=
    NewRingBuffer_panics _ (Or.inr (by decide))
  refine ⟨by decide, hp, ?_⟩
  rintro ⟨rb, h, _⟩
  rw [hp] at h
  cases h

/-- C8: round trip on an empty buffer. For every capacity at least 1, every
empty buffer reachable from `NewRingBuffer(capacity)` and every item `x`,
`Enqueue(x)` succeeds and gives `Size() == 1` and `IsEmpty() == false`; the
following `Dequeue` succeeds, returns `x`, and gives `Size() == 0`,
`IsEmpty() == true` and `IsFull() == false`. -/
theorem C8_round_trip (capacity : Int) (hcap : 1 ≤ capacity) (hmax : capacity ≤ maxInt)
    (rb : RingBuffer) (hreach : Reachable capacity rb) (hempty : (IsEmpty rb).1 = true)
    (x : Value) :
    ∃ rb1 rb2, Enqueue rb x = Except.ok (none, rb1) ∧ (Size rb1).1 = 1 ∧
      (IsEmpty rb1).1 = false ∧ Dequeue rb1 = Except.ok ((x, none), rb2) ∧
      (Size rb2).1 = 0 ∧ (IsEmpty rb2).1 = true ∧ (IsFull rb2).1 = false := by
  have hI := hreach.inv (by omega) hmax
  have hs : rb.size = 0 := by simpa [IsEmpty] using hempty
  have hlt : rb.size < capacity := by omega
  have hI1 := Inv_afterEnqueue hI x hlt
  have hs1 : (afterEnqueue rb x).size = 1 := by simp [afterEnqueue, hs]
  have hpos : 0 < (afterEnqueue rb x).size := by omega
  have hI2 := Inv_afterDequeue hI1 hpos
  have hs2 : (afterDequeue (afterEnqueue rb x)).size = 0 := by simp [afterDequeue, hs1]
  have hc := contents_afterDequeue hI1 hpos
  rw [contents_afterEnqueue hI x hlt, contents_of_size_zero hs,
    contents_of_size_zero hs2] at hc
  have hitem : (afterEnqueue rb x).buffer.getD (afterEnqueue rb x).head.toNat Value.nil = x := by
    simp only [List.nil_append, List.cons.injEq, and_true] at hc
    exact hc.symm
  have hd := Dequeue_ok hI1 hpos
  rw [hitem] at hd
  refine ⟨afterEnqueue rb x, afterDequeue (afterEnqueue rb x), Enqueue_ok hI x hlt, hs1, ?_,
    hd, hs2, ?_, ?_⟩
  · simp [IsEmpty, hs1]
  · simp [IsEmpty, hs2]
  · have := hI2.len
    simp only [IsFull, decide_eq_false_iff_not, hs2]
    omega

/-- Witness for C8: the round trip of the unit test after an earlier round
trip, with `head` and `tail` at index 1 of 3. -/
theorem C8_round_trip_witness :
    ∃ rb1 rb2, Enqueue ⟨[Value.int 1, Value.nil, Value.nil], 0, 1, 1⟩ (Value.int 5)
        = Except.ok (none, rb1) ∧ (Size rb1).1 = 1 ∧
      (IsEmpty rb1).1 = false ∧ Dequeue rb1 = Except.ok ((Value.int 5, none), rb2) ∧
      (Size rb2).1 = 0 ∧ (IsEmpty rb2).1 = true ∧ (IsFull rb2).1 = false :=
  C8_round_trip 3 (by decide) (by decide) ⟨[Value.int 1, Value.nil, Value.nil], 0, 1, 1⟩
    ⟨[Call.enqueue (Value.int 1), Call.dequeue],
      [Reply.enqueued none, Reply.dequeued (Value.int 1) none], rfl⟩
    rfl (Value.int 5)

/-- C9: fill to full and drain to empty. For every capacity at least 1 and
every reachable state with size `s`, the next `capacity - s` `Enqueue` calls
all succeed, after which `Size() == Capacity()`, `IsFull()` is true,
`IsEmpty()` is false and one more `Enqueue` fails; the next `capacity`
`Dequeue` calls then all succeed (returning the old contents followed by the
new values), after which `Size() == 0`, `IsEmpty()` is true, `IsFull()` is
false and one more `Dequeue` fails. -/
theorem C9_fill_and_drain (capacity : Int) (hcap : 1 ≤ capacity) (hmax : capacity ≤ maxInt)
    (rb : RingBuffer) (hreach : Reachable capacity rb) (xs : List Value)
    (hxs : (xs.length : Int) = capacity - (Size rb).1) (y : Value) :
    ∃ rb1 rb2,
      run rb (enqueueCalls xs) = Except.ok (enqueuedOk xs, rb1) ∧
      (Size rb1).1 = (Capacity rb1).1 ∧ (IsFull rb1).1 = true ∧ (IsEmpty rb1).1 = false ∧
      Enqueue rb1 y = Except.ok (some errFull, rb1) ∧
      run rb1 (dequeueCalls capacity.toNat)
        = Except.ok (dequeuedOk (contents rb ++ xs), rb2) ∧
      (Size rb2).1 = 0 ∧ (IsEmpty rb2).1 = true ∧ (IsFull rb2).1 = false ∧
      Dequeue rb2 = Except.ok ((Value.nil, some errEmpty), rb2) := by
  have hI := hreach.inv (by omega) hmax
  simp only [Size] at hxs
  obtain ⟨rb1, hrun1, hI1, hc1, hs1⟩ := run_enqueueCalls xs hI (by omega)
  have hfull : rb1.size = capacity := by omega
  have hlen1 := hI1.len
  obtain ⟨rb2, hrun2, hI2, _, hs2, _⟩ := run_dequeueCalls capacity.toNat hI1 (by omega)
  have htake : (contents rb1).take capacity.toNat = contents rb ++ xs := by
    rw [← hc1]
    apply List.take_of_length_le
    rw [contents_length, hfull]
  rw [htake] at hrun2
  have hzero : rb2.size = 0 := by omega
  have hlen2 := hI2.len
  refine ⟨rb1, rb2, hrun1, ?_, ?_, ?_, Enqueue_full rb1 y (by omega), hrun2, hzero, ?_, ?_,
    Dequeue_empty rb2 hzero⟩
  · simp only [Size, Capacity]
    omega
  · simp only [IsFull, decide_eq_true_eq]
    omega
  · simp only [IsEmpty, decide_eq_false_iff_not]
    omega
  · simp only [IsEmpty, decide_eq_true_eq]
    exact hzero
  · simp only [IsFull, decide_eq_false_iff_not]
    omega

/-- Witness for C9: a capacity-3 buffer holding one value at index 1 is
filled with two more values, the second of which wraps around to index 0. -/
theorem C9_fill_and_drain_witness :
    ∃ rb1 rb2,
      run ⟨[Value.int 1, Value.int 2, Value.nil], 1, 1, 2⟩
          (enqueueCalls [Value.int 3, Value.int 4])
        = Except.ok (enqueuedOk [Value.int 3, Value.int 4], rb1) ∧
      (Size rb1).1 = (Capacity rb1).1 ∧ (IsFull rb1).1 = true ∧ (IsEmpty rb1).1 = false ∧
      Enqueue rb1 (Value.int 5) = Except.ok (some errFull, rb1) ∧
      run rb1 (dequeueCalls (3 : Int).toNat)
        = Except.ok (dequeuedOk (contents ⟨[Value.int 1, Value.int 2, Value.nil], 1, 1, 2⟩
            ++ [Value.int 3, Value.int 4]), rb2) ∧
      (Size rb2).1 = 0 ∧ (IsEmpty rb2).1 = true ∧ (IsFull rb2).1 = false ∧
      Dequeue rb2 = Except.ok ((Value.nil, some errEmpty), rb2) :=
  C9_fill_and_drain 3 (by decide) (by decide) ⟨[Value.int 1, Value.int 2, Value.nil], 1, 1, 2⟩
    ⟨[Call.enqueue (Value.int 1), Call.enqueue (Value.int 2), Call.dequeue],
      [Reply.enqueued none, Reply.enqueued none, Reply.dequeued (Value.int 1) none], rfl⟩
    [Value.int 3, Value.int 4] (by decide) (Value.int 5)

/-- C10: capacity is fixed and the queries are pure. For every capacity at
least 0 for which `NewRingBuffer(capacity)` returns a buffer
(`capacity <= maxSliceLen`), every sequence of calls on that buffer runs
without a panic and `Capacity()` returns `capacity` after every call; in
every state
`Size`, `Capacity`, `IsEmpty` and `IsFull` leave the state as it is,
`IsEmpty()` is true exactly when `Size() == 0` and `IsFull()` is true exactly
when `Size() == Capacity()`. -/
theorem C10_capacity_fixed_queries_pure (capacity : Int) (hcap : 0 ≤ capacity)
    (hmax : capacity ≤ maxSliceLen) (calls : List Call) (k : Nat) (st : RingBuffer) :
    (∃ replies rb, runNew capacity (calls.take k) = Except.ok (replies, rb) ∧
        (Capacity rb).1 = capacity) ∧
    (Size st).2 = st ∧ (Capacity st).2 = st ∧ (IsEmpty st).2 = st ∧ (IsFull st).2 = st ∧
    ((IsEmpty st).1 = true ↔ (Size st).1 = 0) ∧
    ((IsFull st).1 = true ↔ (Size st).1 = (Capacity st).1) := by
  obtain ⟨rs, rb, hrun, hI⟩ := runNew_inv capacity hcap hmax (calls.take k)
  refine ⟨⟨rs, rb, hrun, hI.len⟩, rfl, rfl, rfl, rfl, ?_, ?_⟩
  · simp only [IsEmpty, Size, decide_eq_true_eq]
  · simp only [IsFull, Size, Capacity, decide_eq_true_eq]

/-- Witness for C10: capacity 0, where both calls fail, and the queries on a
full capacity-1 buffer. -/
theorem C10_capacity_fixed_queries_pure_witness :
    (∃ replies rb, runNew 0 ([Call.enqueue (Value.str "e"), Call.dequeue].take 2)
          = Except.ok (replies, rb) ∧
        (Capacity rb).1 = 0) ∧
    (Size ⟨[Value.str "e"], 1, 0, 0⟩).2 = ⟨[Value.str "e"], 1, 0, 0⟩ ∧
    (Capacity ⟨[Value.str "e"], 1, 0, 0⟩).2 = ⟨[Value.str "e"], 1, 0, 0⟩ ∧
    (IsEmpty ⟨[Value.str "e"], 1, 0, 0⟩).2 = ⟨[Value.str "e"], 1, 0, 0⟩ ∧
    (IsFull ⟨[Value.str "e"], 1, 0, 0⟩).2 = ⟨[Value.str "e"], 1, 0, 0⟩ ∧
    ((IsEmpty ⟨[Value.str "e"], 1, 0, 0⟩).1 = true ↔ (Size ⟨[Value.str "e"], 1, 0, 0⟩).1 = 0) ∧
    ((IsFull ⟨[Value.str "e"], 1, 0, 0⟩).1 = true ↔
      (Size ⟨[Value.str "e"], 1, 0, 0⟩).1 = (Capacity ⟨[Value.str "e"], 1, 0, 0⟩).1) :=
  C10_capacity_fixed_queries_pure 0 (by decide) (by decide) _ 2 ⟨[Value.str "e"], 1, 0, 0⟩

/-! ## Responses -/

theorem httpError_fresh_code (msg : String) (code : Int) :
    (httpError ResponseWriter.fresh msg code).code = code := by
  simp [httpError, ResponseWriter.fresh, ResponseWriter.setHeader, ResponseWriter.WriteHeader,
    ResponseWriter.Write]

theorem httpError_fresh_body (msg : String) (code : Int) :
    (httpError ResponseWriter.fresh msg code).body = msg ++ "\n" := by
  simp [httpError, ResponseWriter.fresh, ResponseWriter.setHeader, ResponseWriter.WriteHeader,
    ResponseWriter.Write]

theorem Write_body (w : ResponseWriter) (data : String) :
    (w.Write data).body = w.body ++ data := by
  unfold ResponseWriter.Write ResponseWriter.WriteHeader
  by_cases h1 : w.wroteHeader = true
  · simp [h1]
  · by_cases h2 : w.needsSniff = true <;> simp [h1, h2]

theorem Write_code_of_not_wrote (w : ResponseWriter) (data : String)
    (h : w.wroteHeader = false) : (w.Write data).code = 200 := by
  unfold ResponseWriter.Write ResponseWriter.WriteHeader
  by_cases h2 : w.needsSniff = true <;> simp [h, h2]

theorem encodeResponse_code_of_wrote (codec : JsonCodec) (w : ResponseWriter) (v : JsonObject)
    (h : w.wroteHeader = true) : (encodeResponse codec w v).code = w.code := by
  unfold encodeResponse encode
  cases codec.marshal v with
  | error err => simp [ResponseWriter.WriteHeader, h]
  | ok text => simp [ResponseWriter.Write, ResponseWriter.WriteHeader, h]

theorem encodeResponse_ok (codec : JsonCodec) (w : ResponseWriter) (v : JsonObject)
    (text : String) (h : codec.marshal v = Except.ok text) :
    encodeResponse codec w v = w.Write (text ++ "\n") := by
  unfold encodeResponse encode
  rw [h]

/-! ## The handlers on a buffer of strings -/

theorem enqueueHandler_full (codec : JsonCodec) (rb : RingBuffer) (r : Request)
    (req : EnqueueRequest) (hm : r.method = MethodPost)
    (hd : codec.decodeEnqueueRequest r.body = Except.ok req)
    (hfull : rb.size = goLen rb.buffer) :
    enqueueHandler codec rb ResponseWriter.fresh r
      = Except.ok (httpError ResponseWriter.fresh errFull StatusInternalServerError, rb) := by
  unfold enqueueHandler
  rw [if_neg (not_not.mpr hm), hd]
  simp only [Enqueue_full rb _ hfull]

theorem enqueueHandler_of_enqueue (codec : JsonCodec) (rb rb1 : RingBuffer) (r : Request)
    (req : EnqueueRequest) (hm : r.method = MethodPost)
    (hd : codec.decodeEnqueueRequest r.body = Except.ok req)
    (he : Enqueue rb (Value.str req.Event) = Except.ok (none, rb1)) :
    enqueueHandler codec rb ResponseWriter.fresh r
      = Except.ok (encodeResponse codec
          ((ResponseWriter.fresh.setHeader "Content-Type" "application/json").WriteHeader
            StatusCreated)
          (EnqueueResponse.toJson ⟨"Successfully enqueued event", req.Event⟩), rb1) := by
  unfold enqueueHandler
  rw [if_neg (not_not.mpr hm), hd]
  simp only [he]

theorem enqueueHandler_ok (codec : JsonCodec) {capacity : Int} {rb : RingBuffer}
    (hI : Inv capacity rb) (r : Request) (req : EnqueueRequest) (hm : r.method = MethodPost)
    (hd : codec.decodeEnqueueRequest r.body = Except.ok req) (hlt : rb.size < capacity) :
    enqueueHandler codec rb ResponseWriter.fresh r
      = Except.ok (encodeResponse codec
          ((ResponseWriter.fresh.setHeader "Content-Type" "application/json").WriteHeader
            StatusCreated)
          (EnqueueResponse.toJson ⟨"Successfully enqueued event", req.Event⟩),
          afterEnqueue rb (Value.str req.Event)) := by
  unfold enqueueHandler
  rw [if_neg (not_not.mpr hm), hd]
  simp only [Enqueue_ok hI _ hlt]

theorem dequeueHandler_empty (codec : JsonCodec) (rb : RingBuffer) (r : Request)
    (hm : r.method = MethodGet) (hempty : rb.size = 0) :
    dequeueHandler codec rb ResponseWriter.fresh r
      = Except.ok (httpError ResponseWriter.fresh errEmpty StatusInternalServerError, rb) := by
  unfold dequeueHandler
  rw [if_neg (not_not.mpr hm)]
  simp only [Dequeue_empty rb hempty]

theorem dequeueHandler_ok (codec : JsonCodec) {capacity : Int} {rb : RingBuffer}
    (hI : Inv capacity rb) (r : Request) (hm : r.method = MethodGet) (hpos : 0 < rb.size)
    (event : String) (hitem : rb.buffer.getD rb.head.toNat Value.nil = Value.str event) :
    dequeueHandler codec rb ResponseWriter.fresh r
      = Except.ok (encodeResponse codec
          (ResponseWriter.fresh.setHeader "Content-Type" "application/json")
          (DequeueResponse.toJson ⟨"Successfully dequeued event", event⟩),
          afterDequeue rb) := by
  unfold dequeueHandler
  rw [if_neg (not_not.mpr hm)]
  simp only [Dequeue_ok hI hpos, hitem]

theorem AllStrings_of_size_zero {rb : RingBuffer} (h : rb.size = 0) : AllStrings rb := by
  intro v hv
  rw [contents_of_size_zero h] at hv
  cases hv

theorem AllStrings_afterEnqueue {capacity : Int} {rb : RingBuffer} (hI : Inv capacity rb)
    (hS : AllStrings rb) (event : String) (hlt : rb.size < capacity) :
    AllStrings (afterEnqueue rb (Value.str event)) := by
  intro v hv
  rw [contents_afterEnqueue hI _ hlt, List.mem_append, List.mem_singleton] at hv
  cases hv with
  | inl h => exact hS v h
  | inr h => exact ⟨event, h⟩

theorem AllStrings_afterDequeue {capacity : Int} {rb : RingBuffer} (hI : Inv capacity rb)
    (hS : AllStrings rb) (hpos : 0 < rb.size) :
    (∃ event, rb.buffer.getD rb.head.toNat Value.nil = Value.str event) ∧
      AllStrings (afterDequeue rb) := by
  have hc := contents_afterDequeue hI hpos
  constructor
  · apply hS
    rw [hc]
    exact List.mem_cons_self _ _
  · intro v hv
    apply hS
    rw [hc]
    exact List.mem_cons_of_mem _ hv

theorem query_handler_unchanged (codec : JsonCodec) (rb : RingBuffer) (r : Request)
    (ep : Endpoint) (h1 : ep ≠ Endpoint.enqueue) (h2 : ep ≠ Endpoint.dequeue) :
    ∃ w, ep.handler codec rb ResponseWriter.fresh r = Except.ok (w, rb) := by
  cases ep with
  | enqueue => exact absurd rfl h1
  | dequeue => exact absurd rfl h2
  | status =>
    simp only [Endpoint.handler, handleStatus]
    split <;> exact ⟨_, rfl⟩
  | size =>
    simp only [Endpoint.handler, handleSize]
    split <;> exact ⟨_, rfl⟩
  | capacity =>
    simp only [Endpoint.handler, handleCapacity]
    split <;> exact ⟨_, rfl⟩
  | isEmpty =>
    simp only [Endpoint.handler, handleIsEmpty]
    split <;> exact ⟨_, rfl⟩
  | isFull =>
    simp only [Endpoint.handler, handleIsFull]
    split <;> exact ⟨_, rfl⟩

theorem handler_inv (codec : JsonCodec) {capacity : Int} {rb : RingBuffer}
    (hI : Inv capacity rb) (hS : AllStrings rb) (ep : Endpoint) (r : Request) :
    ∃ w rb', ep.handler codec rb ResponseWriter.fresh r = Except.ok (w, rb') ∧
      Inv capacity rb' ∧ AllStrings rb' := by
  have hs0 := hI.sizeNonneg
  have hs1 := hI.sizeLe
  have hlen := hI.len
  cases ep with
  | enqueue =>
    by_cases hm : r.method = MethodPost
    · cases hd : codec.decodeEnqueueRequest r.body with
      | error err =>
        refine ⟨httpError ResponseWriter.fresh err StatusBadRequest, rb, ?_, hI, hS⟩
        simp only [Endpoint.handler, enqueueHandler, if_neg (not_not.mpr hm), hd]
      | ok req =>
        by_cases hfull : rb.size = goLen rb.buffer
        · exact ⟨_, rb, enqueueHandler_full codec rb r req hm hd hfull, hI, hS⟩
        · have hlt : rb.size < capacity := by omega
          exact ⟨_, _, enqueueHandler_ok codec hI r req hm hd hlt,
            Inv_afterEnqueue hI _ hlt, AllStrings_afterEnqueue hI hS _ hlt⟩
    · refine ⟨httpError ResponseWriter.fresh "Method not allowed" StatusMethodNotAllowed, rb,
        ?_, hI, hS⟩
      simp only [Endpoint.handler, enqueueHandler, if_pos hm]
  | dequeue =>
    by_cases hm : r.method = MethodGet
    · by_cases hempty : rb.size = 0
      · exact ⟨_, rb, dequeueHandler_empty codec rb r hm hempty, hI, hS⟩
      · have hpos : 0 < rb.size := by omega
        obtain ⟨⟨event, hitem⟩, hS'⟩ := AllStrings_afterDequeue hI hS hpos
        exact ⟨_, _, dequeueHandler_ok codec hI r hm hpos event hitem,
          Inv_afterDequeue hI hpos, hS'⟩
    · refine ⟨httpError ResponseWriter.fresh "Method not allowed" StatusMethodNotAllowed, rb,
        ?_, hI, hS⟩
      simp only [Endpoint.handler, dequeueHandler, if_pos hm]
  | status =>
    obtain ⟨w, h⟩ := query_handler_unchanged codec rb r Endpoint.status (by decide) (by decide)
    exact ⟨w, rb, h, hI, hS⟩
  | size =>
    obtain ⟨w, h⟩ := query_handler_unchanged codec rb r Endpoint.size (by decide) (by decide)
    exact ⟨w, rb, h, hI, hS⟩
  | capacity =>
    obtain ⟨w, h⟩ := query_handler_unchanged codec rb r Endpoint.capacity (by decide) (by decide)
    exact ⟨w, rb, h, hI, hS⟩
  | isEmpty =>
    obtain ⟨w, h⟩ := query_handler_unchanged codec rb r Endpoint.isEmpty (by decide) (by decide)
    exact ⟨w, rb, h, hI, hS⟩
  | isFull =>
    obtain ⟨w, h⟩ := query_handler_unchanged codec rb r Endpoint.isFull (by decide) (by decide)
    exact ⟨w, rb, h, hI, hS⟩

theorem serve_inv (codec : JsonCodec) {capacity : Int} (reqs : List (Endpoint × Request)) :
    ∀ {rb : RingBuffer}, Inv capacity rb → AllStrings rb →
      ∃ ws rb', serve codec rb reqs = Except.ok (ws, rb') ∧ Inv capacity rb' ∧
        AllStrings rb' := by
  induction reqs with
  | nil => intro rb hI hS; exact ⟨[], rb, rfl, hI, hS⟩
  | cons q qs ih =>
    intro rb hI hS
    obtain ⟨ep, r⟩ := q
    obtain ⟨w, rb1, h1, hI1, hS1⟩ := handler_inv codec hI hS ep r
    obtain ⟨ws, rb2, h2, hI2, hS2⟩ := ih hI1 hS1
    exact ⟨w :: ws, rb2, by simp only [serve, h1, h2], hI2, hS2⟩

theorem serveNew_inv (codec : JsonCodec) (capacity : Int) (h0 : 0 ≤ capacity)
    (h1 : capacity ≤ maxSliceLen) (reqs : List (Endpoint × Request)) :
    ∃ ws rb, serveNew codec capacity reqs = Except.ok (ws, rb) ∧ Inv capacity rb ∧
      AllStrings rb := by
  have hmax : capacity ≤ maxInt := le_trans h1 maxSliceLen_le_maxInt
  obtain ⟨ws, rb, h, hI, hS⟩ :=
    serve_inv codec reqs (Inv_new capacity h0 hmax) (AllStrings_of_size_zero rfl)
  exact ⟨ws, rb, by simp only [serveNew, NewRingBuffer_ok capacity h0 h1, h], hI, hS⟩

theorem Served_inv {codec : JsonCodec} {capacity : Int} {rb : RingBuffer}
    (_h1 : capacity ≤ maxInt) (h : Served codec capacity rb) :
    0 ≤ capacity ∧ Inv capacity rb ∧ AllStrings rb := by
  obtain ⟨reqs, ws, hr⟩ := h
  have h0 : 0 ≤ capacity := by
    by_contra hneg
    simp only [serveNew, NewRingBuffer_panics capacity (Or.inl (by omega))] at hr
    cases hr
  have hle : capacity ≤ maxSliceLen := by
    by_contra hbig
    simp only [serveNew, NewRingBuffer_panics capacity (Or.inr (by omega))] at hr
    cases hr
  obtain ⟨ws', rb', h', hI, hS⟩ := serveNew_inv codec capacity h0 hle reqs
  rw [hr] at h'
  cases h'
  exact ⟨h0, hI, hS⟩

/-- C16: successful `Enqueue` step. In every state satisfying the invariant
with `size < capacity`, `Enqueue(x)` returns no error, stores `x` in the slot
at the old `tail`, leaves every other slot, the number of slots and `head`
as they were, sets `tail` to `(old tail + 1) mod capacity` and increases
`size` by exactly 1. -/
theorem C16_enqueue_step (capacity : Int) (rb : RingBuffer) (hI : Inv capacity rb)
    (hlt : (Size rb).1 < capacity) (x : Value) :
    ∃ rb', Enqueue rb x = Except.ok (none, rb') ∧
      rb'.buffer[rb.tail.toNat]? = some x ∧
      (∀ i : Nat, i ≠ rb.tail.toNat → rb'.buffer[i]? = rb.buffer[i]?) ∧
      rb'.buffer.length = rb.buffer.length ∧
      rb'.head = rb.head ∧ rb'.tail = (rb.tail + 1) % capacity ∧ rb'.size = rb.size + 1 := by
  have hlt' : rb.size < capacity := hlt
  have hlen := hI.len
  obtain ⟨_, _, ht0, ht1, _⟩ := hI.idx (by have := hI.sizeNonneg; omega)
  have hin : rb.tail.toNat < rb.buffer.length := by
    unfold goLen at hlen
    omega
  refine ⟨afterEnqueue rb x, Enqueue_ok hI x hlt', ?_, ?_, ?_, rfl, ?_, rfl⟩
  · simp only [afterEnqueue]
    rw [List.getElem?_set_self hin]
  · intro i hi
    simp only [afterEnqueue]
    rw [List.getElem?_set_ne (Ne.symm hi)]
  · simp only [afterEnqueue, List.length_set]
  · simp only [afterEnqueue, hlen]

/-- Witness for C16: a capacity-3 buffer holding one value at index 2, so
that the new value goes to index 0. -/
theorem C16_enqueue_step_witness :
    ∃ rb', Enqueue ⟨[Value.int 1, Value.int 2, Value.int 3], 1, 2, 0⟩ (Value.int 4)
        = Except.ok (none, rb') ∧
      rb'.buffer[(0 : Int).toNat]? = some (Value.int 4) ∧
      (∀ i : Nat, i ≠ (0 : Int).toNat →
        rb'.buffer[i]? = [Value.int 1, Value.int 2, Value.int 3][i]?) ∧
      rb'.buffer.length = [Value.int 1, Value.int 2, Value.int 3].length ∧
      rb'.head = 2 ∧ rb'.tail = (0 + 1) % 3 ∧ rb'.size = 1 + 1 :=
  C16_enqueue_step 3 ⟨[Value.int 1, Value.int 2, Value.int 3], 1, 2, 0⟩
    ⟨rfl, by decide, by decide, by decide, fun _ => by decide⟩ (by decide) (Value.int 4)

/-- C17: successful `Dequeue` step. In every state satisfying the invariant
with `size > 0`, `Dequeue` returns no error and the value stored in the slot
at the old `head`, leaves the slot array (the vacated slot included) and
`tail` as they were, sets `head` to `(old head + 1) mod capacity` and
decreases `size` by exactly 1. -/
theorem C17_dequeue_step (capacity : Int) (rb : RingBuffer) (hI : Inv capacity rb)
    (hpos : 0 < (Size rb).1) :
    ∃ item rb', Dequeue rb = Except.ok ((item, none), rb') ∧
      rb.buffer[rb.head.toNat]? = some item ∧
      rb'.buffer = rb.buffer ∧ rb'.tail = rb.tail ∧
      rb'.head = (rb.head + 1) % capacity ∧ rb'.size = rb.size - 1 := by
  have hpos' : 0 < rb.size := hpos
  have hlen := hI.len
  obtain ⟨hh0, hh1, _, _, _⟩ := hI.idx (by have := hI.sizeLe; omega)
  have hin : rb.head.toNat < rb.buffer.length := by
    unfold goLen at hlen
    omega
  refine ⟨rb.buffer.getD rb.head.toNat Value.nil, afterDequeue rb, Dequeue_ok hI hpos', ?_,
    rfl, rfl, ?_, rfl⟩
  · rw [List.getD_eq_getElem?_getD, List.getElem?_eq_getElem hin]
    rfl
  · simp only [afterDequeue, hlen]

/-- Witness for C17: a full capacity-2 buffer whose oldest value sits at
index 1, so that `head` wraps around to index 0. -/
theorem C17_dequeue_step_witness :
    ∃ item rb', Dequeue ⟨[Value.int 3, Value.int 2], 2, 1, 1⟩ = Except.ok ((item, none), rb') ∧
      [Value.int 3, Value.int 2][(1 : Int).toNat]? = some item ∧
      rb'.buffer = [Value.int 3, Value.int 2] ∧ rb'.tail = 1 ∧
      rb'.head = (1 + 1) % 2 ∧ rb'.size = 2 - 1 :=
  C17_dequeue_step 2 ⟨[Value.int 3, Value.int 2], 2, 1, 1⟩
    ⟨rfl, by decide, by decide, by decide, fun _ => by decide⟩ (by decide)

/-- C18: capacity zero. `NewRingBuffer(0)` is at once empty and full, and in
every sequence of calls on it every call returns its error and leaves the
state as it is, so neither the slot access nor the modulo is reached;
whereas for every capacity at least 1 no reachable state is both empty and
full. -/
theorem C18_capacity_zero (calls : List Call) (capacity : Int) (hcap : 1 ≤ capacity)
    (hmax : capacity ≤ maxInt) (rb : RingBuffer) (hreach : Reachable capacity rb) :
    (∃ rb0, NewRingBuffer 0 = Except.ok rb0 ∧
        (IsEmpty rb0).1 = true ∧ (IsFull rb0).1 = true ∧
        run rb0 calls = Except.ok (calls.map failedReply, rb0)) ∧
    ¬ ((IsEmpty rb).1 = true ∧ (IsFull rb).1 = true) := by
  constructor
  · refine ⟨⟨[], 0, 0, 0⟩, rfl, rfl, rfl, ?_⟩
    induction calls with
    | nil => rfl
    | cons c cs ih =>
      have hstep : step ⟨[], 0, 0, 0⟩ c = Except.ok (failedReply c, ⟨[], 0, 0, 0⟩) := by
        cases c <;> rfl
      simp only [run, hstep, ih, List.map_cons]
  · have hI := hreach.inv (by omega) hmax
    have hlen := hI.len
    simp only [IsEmpty, IsFull, decide_eq_true_eq, not_and]
    intro h0 hfull
    omega

/-- Witness for C18: three calls on the capacity-0 buffer, and a capacity-1
buffer after one `Enqueue`. -/
theorem C18_capacity_zero_witness :
    (∃ rb0, NewRingBuffer 0 = Except.ok rb0 ∧
        (IsEmpty rb0).1 = true ∧ (IsFull rb0).1 = true ∧
        run rb0 [Call.enqueue (Value.str "e"), Call.dequeue, Call.enqueue Value.nil]
          = Except.ok ([Call.enqueue (Value.str "e"), Call.dequeue, Call.enqueue Value.nil].map
              failedReply, rb0)) ∧
    ¬ ((IsEmpty ⟨[Value.str "e"], 1, 0, 0⟩).1 = true ∧
        (IsFull ⟨[Value.str "e"], 1, 0, 0⟩).1 = true) :=
  C18_capacity_zero _ 1 (by decide) (by decide) ⟨[Value.str "e"], 1, 0, 0⟩
    ⟨[Call.enqueue (Value.str "e")], [Reply.enqueued none], rfl⟩

/-- C11: a wrong method is rejected before anything else. For each of the
seven handlers, every request whose method differs from the one the handler
expects (POST for enqueue, GET for the others), with any body and in any
buffer state, gets status 405 with body "Method not allowed\n", and the
buffer is left as it is. -/
theorem C11_wrong_method (codec : JsonCodec) (ep : Endpoint) (rb : RingBuffer) (r : Request)
    (hm : r.method ≠ ep.expectedMethod) :
    ∃ w, ep.handler codec rb ResponseWriter.fresh r = Except.ok (w, rb) ∧
      w.code = 405 ∧ w.body = "Method not allowed\n" ∧
      Endpoint.expectedMethod Endpoint.enqueue = "POST" ∧
      (ep ≠ Endpoint.enqueue → ep.expectedMethod = "GET") := by
  refine ⟨httpError ResponseWriter.fresh "Method not allowed" StatusMethodNotAllowed, ?_,
    httpError_fresh_code _ _, httpError_fresh_body _ _, rfl, ?_⟩
  · cases ep <;>
      simp only [Endpoint.expectedMethod] at hm <;>
      simp only [Endpoint.handler, enqueueHandler, dequeueHandler, handleStatus, handleSize,
        handleCapacity, handleIsEmpty, handleIsFull, if_pos hm]
  · cases ep <;> simp [Endpoint.expectedMethod, MethodGet]

/-- Witness for C11: a GET request on the enqueue route of a full buffer, as
in the test "method not allowed". -/
theorem C11_wrong_method_witness :
    ∃ w, Endpoint.handler exampleCodec Endpoint.enqueue ⟨[Value.str "a"], 1, 0, 0⟩
        ResponseWriter.fresh ⟨"GET", "\x7b\"event\": \"event1\"\x7d"⟩
        = Except.ok (w, ⟨[Value.str "a"], 1, 0, 0⟩) ∧
      w.code = 405 ∧ w.body = "Method not allowed\n" ∧
      Endpoint.expectedMethod Endpoint.enqueue = "POST" ∧
      (Endpoint.enqueue ≠ Endpoint.enqueue → Endpoint.expectedMethod Endpoint.enqueue = "GET") :=
  C11_wrong_method exampleCodec Endpoint.enqueue ⟨[Value.str "a"], 1, 0, 0⟩
    ⟨"GET", "\x7b\"event\": \"event1\"\x7d"⟩ (by decide)

/-- C14: a malformed enqueue body never touches the buffer. In every buffer
state, full or not, a POST request to the enqueue handler whose body fails to
decode gets status 400 with the text of the decode error followed by a
newline, and the buffer is left as it is. -/
theorem C14_malformed_body (codec : JsonCodec) (rb : RingBuffer) (r : Request)
    (hm : r.method = MethodPost) (err : String)
    (hd : codec.decodeEnqueueRequest r.body = Except.error err) :
    ∃ w, enqueueHandler codec rb ResponseWriter.fresh r = Except.ok (w, rb) ∧
      w.code = 400 ∧ w.body = err ++ "\n" := by
  refine ⟨httpError ResponseWriter.fresh err StatusBadRequest, ?_,
    httpError_fresh_code _ _, httpError_fresh_body _ _⟩
  unfold enqueueHandler
  rw [if_neg (not_not.mpr hm), hd]

/-- Witness for C14: a body that does not decode, posted against a full
buffer, yields 400 and not 500. -/
theorem C14_malformed_body_witness :
    ∃ w, enqueueHandler exampleCodec ⟨[Value.str "a"], 1, 0, 0⟩ ResponseWriter.fresh
        ⟨"POST", "invalid json"⟩ = Except.ok (w, ⟨[Value.str "a"], 1, 0, 0⟩) ∧
      w.code = 400 ∧
      w.body = "invalid character \x27i\x27 looking for beginning of value" ++ "\n" :=
  C14_malformed_body exampleCodec ⟨[Value.str "a"], 1, 0, 0⟩ ⟨"POST", "invalid json"⟩ rfl
    "invalid character \x27i\x27 looking for beginning of value" rfl

/-- C15: the status endpoint reports the buffer faithfully. In every buffer
state a GET request to the status handler gets status 200 and the encoding of
a `StatusResponse` with status "OK", size `Size()`, capacity `Capacity()`,
isEmpty `IsEmpty()` and isFull `IsFull()`, followed by a newline; the reported
isEmpty is true exactly when the reported size is 0, the reported isFull
exactly when the reported size equals the reported capacity; the buffer is
left as it is. -/
theorem C15_status_endpoint (codec : JsonCodec) (rb : RingBuffer) (r : Request)
    (hm : r.method = MethodGet) :
    ∃ w resp, handleStatus codec rb ResponseWriter.fresh r = Except.ok (w, rb) ∧
      w.code = 200 ∧
      (∀ text, codec.marshal (StatusResponse.toJson resp) = Except.ok text →
        w.body = text ++ "\n") ∧
      resp.Status = "OK" ∧ resp.Size = (Size rb).1 ∧ resp.Capacity = (Capacity rb).1 ∧
      resp.IsEmpty = (IsEmpty rb).1 ∧ resp.IsFull = (IsFull rb).1 ∧
      (resp.IsEmpty = true ↔ resp.Size = 0) ∧
      (resp.IsFull = true ↔ resp.Size = resp.Capacity) := by
  refine ⟨encodeResponse codec
      ((ResponseWriter.fresh.setHeader "Content-Type" "application/json").WriteHeader StatusOK)
      (StatusResponse.toJson ⟨"OK", rb.size, goLen rb.buffer, decide (rb.size = 0),
        decide (rb.size = goLen rb.buffer)⟩),
    ⟨"OK", rb.size, goLen rb.buffer, decide (rb.size = 0),
      decide (rb.size = goLen rb.buffer)⟩, ?_, ?_, ?_, rfl, rfl, rfl, rfl, rfl, ?_, ?_⟩
  · unfold handleStatus
    rw [if_neg (not_not.mpr hm)]
    rfl
  · rw [encodeResponse_code_of_wrote]
    · rfl
    · rfl
  · intro text ht
    rw [encodeResponse_ok codec _ _ text ht]
    simp [ResponseWriter.Write, ResponseWriter.WriteHeader, ResponseWriter.setHeader,
      ResponseWriter.fresh]
  · simp only [decide_eq_true_eq]
  · simp only [decide_eq_true_eq]

/-- Witness for C15: the status of a full capacity-1 buffer. -/
theorem C15_status_endpoint_witness :
    ∃ w, handleStatus exampleCodec ⟨[Value.str "a"], 1, 0, 0⟩ ResponseWriter.fresh ⟨"GET", ""⟩
        = Except.ok (w, ⟨[Value.str "a"], 1, 0, 0⟩) ∧ w.code = 200 ∧
      w.body = "\x7b\"status\":\"OK\",\"size\":1,\"capacity\":1,\"isEmpty\":false,\"isFull\":true\x7d\n" := by
  obtain ⟨w, resp, h, hc, hb, h1, h2, h3, h4, h5, _, _⟩ :=
    C15_status_endpoint exampleCodec ⟨[Value.str "a"], 1, 0, 0⟩ ⟨"GET", ""⟩ rfl
  refine ⟨w, h, hc, ?_⟩
  obtain ⟨st, sz, cp, ie, isf⟩ := resp
  simp only at h1 h2 h3 h4 h5
  subst h1 h2 h3 h4 h5
  exact hb _ rfl

/-- C12: the enqueue endpoint. For a POST request whose body decodes to the
event `e`: on a full buffer the response is status 500 with body "error:
cannot enqueue to a full buffer\n" and the buffer is left as it is; whenever
`Enqueue(e)` succeeds the response is status 201 with the encoding of
`{"message":"Successfully enqueued event","event":e}` followed by a newline
and the buffer afterwards is the one `Enqueue(e)` yields; and on every buffer
that satisfies the invariant and is not full `Enqueue(e)` does succeed, with
the size one larger and `e` the newest element. -/
theorem C12_enqueue_endpoint (codec : JsonCodec) (rb : RingBuffer) (r : Request)
    (req : EnqueueRequest) (hm : r.method = MethodPost)
    (hd : codec.decodeEnqueueRequest r.body = Except.ok req) :
    ((IsFull rb).1 = true →
      ∃ w, enqueueHandler codec rb ResponseWriter.fresh r = Except.ok (w, rb) ∧
        w.code = 500 ∧ w.body = "error: cannot enqueue to a full buffer\n") ∧
    (∀ rb', Enqueue rb (Value.str req.Event) = Except.ok (none, rb') →
      ∃ w, enqueueHandler codec rb ResponseWriter.fresh r = Except.ok (w, rb') ∧
        w.code = 201 ∧
        (∀ text, codec.marshal
            (EnqueueResponse.toJson ⟨"Successfully enqueued event", req.Event⟩)
              = Except.ok text → w.body = text ++ "\n")) ∧
    (∀ capacity, Inv capacity rb → (IsFull rb).1 = false →
      ∃ rb', Enqueue rb (Value.str req.Event) = Except.ok (none, rb') ∧
        (Size rb').1 = (Size rb).1 + 1 ∧
        contents rb' = contents rb ++ [Value.str req.Event]) := by
  refine ⟨?_, ?_, ?_⟩
  · intro hfull
    have hfull' : rb.size = goLen rb.buffer := by simpa [IsFull] using hfull
    exact ⟨_, enqueueHandler_full codec rb r req hm hd hfull', httpError_fresh_code _ _,
      httpError_fresh_body _ _⟩
  · intro rb' he
    refine ⟨_, enqueueHandler_of_enqueue codec rb rb' r req hm hd he, ?_, ?_⟩
    · rw [encodeResponse_code_of_wrote]
      · rfl
      · rfl
    · intro text ht
      rw [encodeResponse_ok codec _ _ text ht]
      simp [ResponseWriter.Write, ResponseWriter.WriteHeader, ResponseWriter.setHeader,
        ResponseWriter.fresh]
  · intro capacity hI hnot
    have hne : rb.size ≠ goLen rb.buffer := by simpa [IsFull] using hnot
    have hlt : rb.size < capacity := by
      have := hI.len
      have := hI.sizeLe
      omega
    exact ⟨_, Enqueue_ok hI _ hlt, rfl, contents_afterEnqueue hI _ hlt⟩

/-- Witness for C12: the two enqueue tests of `http_test.go`, the request
`{"event": "event1"}` against a capacity-3 buffer holding three events and
against an empty one. -/
theorem C12_enqueue_endpoint_witness :
    (∃ w, enqueueHandler exampleCodec
          ⟨[Value.str "event1", Value.str "event2", Value.str "event3"], 3, 0, 0⟩
          ResponseWriter.fresh ⟨"POST", "\x7b\"event\": \"event1\"\x7d"⟩
        = Except.ok (w, ⟨[Value.str "event1", Value.str "event2", Value.str "event3"], 3, 0, 0⟩) ∧
      w.code = 500 ∧ w.body = "error: cannot enqueue to a full buffer\n") ∧
    (∃ w rb', enqueueHandler exampleCodec ⟨[Value.nil, Value.nil, Value.nil], 0, 0, 0⟩
          ResponseWriter.fresh ⟨"POST", "\x7b\"event\": \"event1\"\x7d"⟩ = Except.ok (w, rb') ∧
      w.code = 201 ∧
      w.body = "\x7b\"message\":\"Successfully enqueued event\",\"event\":\"event1\"\x7d\n" ∧
      (Size rb').1 = 1 ∧ contents rb' = [Value.str "event1"]) := by
  constructor
  · exact (C12_enqueue_endpoint exampleCodec
      ⟨[Value.str "event1", Value.str "event2", Value.str "event3"], 3, 0, 0⟩
      ⟨"POST", "\x7b\"event\": \"event1\"\x7d"⟩ ⟨"event1"⟩ rfl rfl).1 rfl
  · obtain ⟨_, h2, h3⟩ := C12_enqueue_endpoint exampleCodec
      ⟨[Value.nil, Value.nil, Value.nil], 0, 0, 0⟩
      ⟨"POST", "\x7b\"event\": \"event1\"\x7d"⟩ ⟨"event1"⟩ rfl rfl
    obtain ⟨rb', he, hs, hq⟩ := h3 3
      ⟨rfl, by decide, by decide, by decide, fun _ => by decide⟩ rfl
    obtain ⟨w, h, hc, hb⟩ := h2 rb' he
    exact ⟨w, rb', h, hc, hb _ rfl, hs, hq⟩

/-- C13: the dequeue endpoint. In every buffer state reached by serving
requests through the handlers, a GET request to the dequeue handler gets, on
an empty buffer, status 500 with body "error: cannot dequeue from an empty
buffer\n" and leaves the buffer as it is; otherwise the oldest value in the
buffer is a string `e`, it is removed, and the response is status 200 with
the encoding of `{"message":"Successfully dequeued event","event":e}`
followed by a newline. -/
theorem C13_dequeue_endpoint (codec : JsonCodec) (capacity : Int) (hmax : capacity ≤ maxInt)
    (rb : RingBuffer) (hs : Served codec capacity rb) (r : Request)
    (hm : r.method = MethodGet) :
    ∃ w rb', dequeueHandler codec rb ResponseWriter.fresh r = Except.ok (w, rb') ∧
      ((IsEmpty rb).1 = true →
        w.code = 500 ∧ w.body = "error: cannot dequeue from an empty buffer\n" ∧ rb' = rb) ∧
      ((IsEmpty rb).1 = false →
        ∃ e, (contents rb).head? = some (Value.str e) ∧
          contents rb' = (contents rb).tail ∧ (Size rb').1 = (Size rb).1 - 1 ∧
          ∀ text, codec.marshal
              (DequeueResponse.toJson ⟨"Successfully dequeued event", e⟩) = Except.ok text →
            w.code = 200 ∧ w.body = text ++ "\n") := by
  obtain ⟨_, hI, hS⟩ := Served_inv hmax hs
  have hs0 := hI.sizeNonneg
  by_cases hempty : rb.size = 0
  · refine ⟨_, rb, dequeueHandler_empty codec rb r hm hempty, ?_, ?_⟩
    · intro _
      exact ⟨httpError_fresh_code _ _, httpError_fresh_body _ _, rfl⟩
    · intro hne
      simp [IsEmpty, hempty] at hne
  · have hpos : 0 < rb.size := by omega
    obtain ⟨⟨event, hitem⟩, _⟩ := AllStrings_afterDequeue hI hS hpos
    have hc := contents_afterDequeue hI hpos
    rw [hitem] at hc
    refine ⟨_, _, dequeueHandler_ok codec hI r hm hpos event hitem, ?_, ?_⟩
    · intro he
      simp [IsEmpty, hempty] at he
    · intro _
      refine ⟨event, by rw [hc]; rfl, by rw [hc]; rfl, rfl, ?_⟩
      intro text ht
      rw [encodeResponse_ok codec _ _ text ht]
      refine ⟨Write_code_of_not_wrote _ _ rfl, ?_⟩
      rw [Write_body]
      simp [ResponseWriter.setHeader, ResponseWriter.fresh]

/-- Witness for C13: the test "successfully dequeued event", a GET request
after "event1" was enqueued into a capacity-3 buffer through the enqueue
handler. -/
theorem C13_dequeue_endpoint_witness :
    ∃ w rb', dequeueHandler exampleCodec ⟨[Value.str "event1", Value.nil, Value.nil], 1, 0, 1⟩
        ResponseWriter.fresh ⟨"GET", ""⟩ = Except.ok (w, rb') ∧
      w.code = 200 ∧
      w.body = "\x7b\"message\":\"Successfully dequeued event\",\"event\":\"event1\"\x7d\n" ∧
      contents rb' = [] := by
  obtain ⟨w, rb', h, _, h2⟩ := C13_dequeue_endpoint exampleCodec 3 (by decide)
    ⟨[Value.str "event1", Value.nil, Value.nil], 1, 0, 1⟩
    ⟨[(Endpoint.enqueue, ⟨"POST", "\x7b\"event\": \"event1\"\x7d"⟩)],
      [⟨true, 201, [("Content-Type", "application/json")], none,
        "\x7b\"message\":\"Successfully enqueued event\",\"event\":\"event1\"\x7d\n"⟩], rfl⟩
    ⟨"GET", ""⟩ rfl
  obtain ⟨e, he, hq, _, hb⟩ := h2 rfl
  have he' : e = "event1" := by
    have h3 : some (Value.str "event1") = some (Value.str e) := he
    simp only [Option.some.injEq, Value.str.injEq] at h3
    exact h3.symm
  subst he'
  obtain ⟨hcode, hbody⟩ := hb _ rfl
  exact ⟨w, rb', h, hcode, hbody, hq⟩

/-- C19: the type assertion of the dequeue handler cannot fail. For every
capacity at least 1 for which `NewRingBuffer(capacity)` returns a buffer
(`capacity <= maxSliceLen`), serving any sequence of requests on that buffer
ends without a panic, every value the buffer then
holds is a string, and so is every item a successful `Dequeue` returns
there. -/
theorem C19_type_assertion_safe (codec : JsonCodec) (capacity : Int) (hcap : 1 ≤ capacity)
    (hmax : capacity ≤ maxSliceLen) (reqs : List (Endpoint × Request)) :
    ∃ ws rb, serveNew codec capacity reqs = Except.ok (ws, rb) ∧ AllStrings rb ∧
      ∀ item rb', Dequeue rb = Except.ok ((item, none), rb') → ∃ s, item = Value.str s := by
  obtain ⟨ws, rb, h, hI, hS⟩ := serveNew_inv codec capacity (by omega) hmax reqs
  refine ⟨ws, rb, h, hS, ?_⟩
  intro item rb' hd
  have hs0 := hI.sizeNonneg
  by_cases hempty : rb.size = 0
  · rw [Dequeue_empty rb hempty] at hd
    simp at hd
  · have hpos : 0 < rb.size := by omega
    obtain ⟨⟨event, hitem⟩, _⟩ := AllStrings_afterDequeue hI hS hpos
    rw [Dequeue_ok hI hpos, hitem] at hd
    simp only [Except.ok.injEq, Prod.mk.injEq, and_true] at hd
    exact ⟨event, hd.1.symm⟩

/-- Witness for C19: a capacity-1 buffer served an enqueue, a rejected
enqueue, two dequeues and another enqueue. -/
theorem C19_type_assertion_safe_witness :
    ∃ ws rb, serveNew exampleCodec 1
        [(Endpoint.enqueue, ⟨"POST", "\x7b\"event\": \"event1\"\x7d"⟩),
          (Endpoint.enqueue, ⟨"POST", "\x7b\"event\": \"event1\"\x7d"⟩),
          (Endpoint.dequeue, ⟨"GET", ""⟩), (Endpoint.dequeue, ⟨"GET", ""⟩),
          (Endpoint.enqueue, ⟨"POST", "\x7b\"event\": \"event1\"\x7d"⟩)]
        = Except.ok (ws, rb) ∧ AllStrings rb ∧
      ∀ item rb', Dequeue rb = Except.ok ((item, none), rb') → ∃ s, item = Value.str s :=
  C19_type_assertion_safe exampleCodec 1 (by decide) (by decide) _

/-! ## Two goroutines inside `Enqueue` -/

theorem interleave_alone (rb : RingBuffer) (item : Value) (t2 : EnqueueThread) :
    interleave rb (EnqueueThread.start item) t2 aloneSchedule =
      match Enqueue rb item with
      | Except.error p => Except.error p
      | Except.ok (err, rb') => Except.ok (rb', ⟨item, EnqueuePc.returned err⟩, t2) := by
  unfold Enqueue
  simp only [aloneSchedule, interleave, enqueueStep, EnqueueThread.start]
  by_cases h1 : rb.size = goLen rb.buffer
  · simp only [if_pos h1]
  · simp only [if_neg h1]
    by_cases h2 : rb.tail < 0 ∨ goLen rb.buffer ≤ rb.tail
    · simp only [if_pos h2]
    · simp only [if_neg h2, goLen_set]
      cases goRem (wrapInt (rb.tail + 1)) (goLen rb.buffer) with
      | error p => rfl
      | ok tail => rfl

theorem enqueueStep_check (rb : RingBuffer) (x : Value) (h : rb.size ≠ goLen rb.buffer) :
    enqueueStep rb ⟨x, EnqueuePc.check⟩ = Except.ok (rb, ⟨x, EnqueuePc.store⟩) := by
  simp only [enqueueStep, if_neg h]

theorem enqueueStep_store (rb : RingBuffer) (x : Value) (h0 : 0 ≤ rb.tail)
    (h1 : rb.tail < goLen rb.buffer) :
    enqueueStep rb ⟨x, EnqueuePc.store⟩
      = Except.ok (⟨rb.buffer.set rb.tail.toNat x, rb.size, rb.head, rb.tail⟩,
          ⟨x, EnqueuePc.advance⟩) := by
  have h : ¬ (rb.tail < 0 ∨ goLen rb.buffer ≤ rb.tail) := by omega
  simp only [enqueueStep, if_neg h]

theorem enqueueStep_advance (rb : RingBuffer) (x : Value) (h0 : 0 ≤ rb.tail)
    (h1 : rb.tail < goLen rb.buffer) (h2 : goLen rb.buffer ≤ maxInt) :
    enqueueStep rb ⟨x, EnqueuePc.advance⟩
      = Except.ok (⟨rb.buffer, rb.size, rb.head, (rb.tail + 1) % goLen rb.buffer⟩,
          ⟨x, EnqueuePc.increment⟩) := by
  simp only [enqueueStep, goRem_succ rb.tail (goLen rb.buffer) h0 h1 h2]

theorem enqueueStep_increment (rb : RingBuffer) (x : Value) (h0 : 0 ≤ rb.size)
    (h1 : rb.size < maxInt) :
    enqueueStep rb ⟨x, EnqueuePc.increment⟩
      = Except.ok (⟨rb.buffer, rb.size + 1, rb.head, rb.tail⟩,
          ⟨x, EnqueuePc.returned none⟩) := by
  unfold maxInt at h1
  simp only [enqueueStep, wrapInt_of_range (rb.size + 1) (by omega) (by omega)]

theorem set_getD_self (l : List Value) (i : Nat) (h : i < l.length) :
    l.set i (l.getD i Value.nil) = l := by
  apply List.ext_getElem?
  intro n
  by_cases hn : i = n
  · subst hn
    rw [List.getElem?_set_self h, List.getD_eq_getElem?_getD, List.getElem?_eq_getElem h]
    rfl
  · rw [List.getElem?_set_ne hn]

/-- What the race leaves behind: the second event in the slot at the old
`tail`, the size counted up twice and `tail` advanced twice. -/
theorem interleave_race {capacity : Int} {rb : RingBuffer} (hI : Inv capacity rb)
    (hroom : rb.size + 2 ≤ capacity) (a b : Value) :
    interleave rb (EnqueueThread.start a) (EnqueueThread.start b) raceSchedule
      = Except.ok (⟨rb.buffer.set rb.tail.toNat b, rb.size + 1 + 1, rb.head,
            ((rb.tail + 1) % capacity + 1) % capacity⟩,
          ⟨a, EnqueuePc.returned none⟩, ⟨b, EnqueuePc.returned none⟩) := by
  obtain ⟨hlen, hcap, hs0, hs1, hidx⟩ := hI
  have hpos : 0 < capacity := by omega
  obtain ⟨_, _, ht0, ht1, _⟩ := hidx hpos
  have hne : rb.size ≠ goLen rb.buffer := by omega
  have ht1' : 0 ≤ (rb.tail + 1) % capacity := Int.emod_nonneg _ (by omega)
  have ht2' : (rb.tail + 1) % capacity < capacity := Int.emod_lt_of_pos _ hpos
  have hmax : capacity ≤ 9223372036854775807 := hcap
  simp only [raceSchedule, interleave, EnqueueThread.start]
  rw [enqueueStep_check rb a hne]
  simp only []
  rw [enqueueStep_check rb b hne]
  simp only []
  rw [enqueueStep_store rb a ht0 (by omega)]
  simp only []
  rw [enqueueStep_store ⟨rb.buffer.set rb.tail.toNat a, rb.size, rb.head, rb.tail⟩ b
    ht0 (by simp only [goLen_set]; omega)]
  simp only [List.set_set]
  rw [enqueueStep_advance ⟨rb.buffer.set rb.tail.toNat b, rb.size, rb.head, rb.tail⟩ a
    ht0 (by simp only [goLen_set]; omega) (by simp only [goLen_set]; omega)]
  simp only [goLen_set, hlen]
  rw [enqueueStep_advance
    ⟨rb.buffer.set rb.tail.toNat b, rb.size, rb.head, (rb.tail + 1) % capacity⟩ b
    ht1' (by simp only [goLen_set]; omega) (by simp only [goLen_set]; omega)]
  simp only [goLen_set, hlen]
  rw [enqueueStep_increment ⟨rb.buffer.set rb.tail.toNat b, rb.size, rb.head,
    ((rb.tail + 1) % capacity + 1) % capacity⟩ a hs0 (by unfold maxInt; simp only []; omega)]
  simp only []
  rw [enqueueStep_increment ⟨rb.buffer.set rb.tail.toNat b, rb.size + 1, rb.head,
    ((rb.tail + 1) % capacity + 1) % capacity⟩ b (by simp only []; omega)
    (by unfold maxInt; simp only []; omega)]

/-- C20: unsynchronised concurrent access. `Enqueue` takes no lock, and there
is an interleaving of two concurrent `Enqueue` calls that loses an event: on
every buffer that satisfies the invariant and has room for two more events,
when the goroutines alternate statement by statement (both store at the same
`tail` before either advances it) both calls return no error and the size
grows by two, yet the first event is stored nowhere: the slot at the old
`tail` holds the second event, the queue ends with the second event followed
by whatever the next slot held before, whereas the two calls one after the
other end it with both events. -/
theorem C20_concurrent_enqueue_race (capacity : Int) (rb : RingBuffer) (hI : Inv capacity rb)
    (hroom : (Size rb).1 + 2 ≤ capacity) (a b : Value) :
    ∃ rb' rbseq,
      interleave rb (EnqueueThread.start a) (EnqueueThread.start b) raceSchedule
        = Except.ok (rb', ⟨a, EnqueuePc.returned none⟩, ⟨b, EnqueuePc.returned none⟩) ∧
      rb'.buffer = rb.buffer.set rb.tail.toNat b ∧
      (Size rb').1 = (Size rb).1 + 2 ∧ rb'.head = rb.head ∧
      rb'.tail = (rb.tail + 2) % capacity ∧
      contents rb'
        = contents rb ++ [b, rb.buffer.getD ((rb.tail + 1) % capacity).toNat Value.nil] ∧
      run rb (enqueueCalls [a, b]) = Except.ok (enqueuedOk [a, b], rbseq) ∧
      contents rbseq = contents rb ++ [a, b] := by
  have hroom' : rb.size + 2 ≤ capacity := hroom
  have hlen := hI.len
  have hs0 := hI.sizeNonneg
  have hpos : 0 < capacity := by omega
  obtain ⟨_, _, ht0, ht1, _⟩ := hI.idx hpos
  have hlt : rb.size < capacity := by omega
  have hI1 := Inv_afterEnqueue hI b hlt
  have hlt1 : (afterEnqueue rb b).size < capacity := by
    simp only [afterEnqueue]
    omega
  have hlenN : rb.buffer.length = capacity.toNat := by
    unfold goLen at hlen
    omega
  have hne : ((rb.tail + 1) % capacity).toNat ≠ rb.tail.toNat := by
    have h1 : 0 ≤ (rb.tail + 1) % capacity := Int.emod_nonneg _ (by omega)
    by_cases hw : rb.tail + 1 < capacity
    · rw [Int.emod_eq_of_lt (by omega) hw]
      omega
    · have : rb.tail + 1 = capacity := by omega
      rw [this, Int.emod_self]
      omega
  have hin : ((rb.tail + 1) % capacity).toNat < (rb.buffer.set rb.tail.toNat b).length := by
    have h2 : (rb.tail + 1) % capacity < capacity := Int.emod_lt_of_pos _ hpos
    have h1 : 0 ≤ (rb.tail + 1) % capacity := Int.emod_nonneg _ (by omega)
    rw [List.length_set]
    omega
  have hstale : rb.buffer.getD ((rb.tail + 1) % capacity).toNat Value.nil
      = (rb.buffer.set rb.tail.toNat b).getD ((rb.tail + 1) % capacity).toNat Value.nil := by
    simp only [List.getD_eq_getElem?_getD]
    rw [List.getElem?_set_ne (Ne.symm hne)]
  have hstate : (⟨rb.buffer.set rb.tail.toNat b, rb.size + 1 + 1, rb.head,
      ((rb.tail + 1) % capacity + 1) % capacity⟩ : RingBuffer)
      = afterEnqueue (afterEnqueue rb b)
          (rb.buffer.getD ((rb.tail + 1) % capacity).toNat Value.nil) := by
    simp only [afterEnqueue, goLen_set, hlen]
    rw [hstale, set_getD_self _ _ hin]
  obtain ⟨rbseq, hseq, _, hcseq, _⟩ := run_enqueueCalls [a, b] hI (by
    simp only [List.length_cons, List.length_nil]
    omega)
  refine ⟨_, rbseq, interleave_race hI hroom' a b, rfl, ?_, rfl, ?_, ?_, hseq, hcseq⟩
  · simp only [Size]
    omega
  · simp only []
    rw [Int.emod_add_emod]
    congr 1
    omega
  · rw [hstate, contents_afterEnqueue hI1 _ hlt1, contents_afterEnqueue hI b hlt]
    simp

/-- Witness for C20: two goroutines enqueue "a" and "b" into a new buffer of
capacity 3. Both calls return no error and `Size()` is 2, but "a" is neither
in the queue nor in any slot, and the queue ends with a `nil` slot. -/
theorem C20_concurrent_enqueue_race_witness :
    ∃ rb', interleave ⟨[Value.nil, Value.nil, Value.nil], 0, 0, 0⟩
          (EnqueueThread.start (Value.str "a")) (EnqueueThread.start (Value.str "b"))
          raceSchedule
        = Except.ok (rb', ⟨Value.str "a", EnqueuePc.returned none⟩,
            ⟨Value.str "b", EnqueuePc.returned none⟩) ∧
      (Size rb').1 = 2 ∧ contents rb' = [Value.str "b", Value.nil] ∧
      Value.str "a" ∉ contents rb' ∧ Value.str "a" ∉ rb'.buffer := by
  obtain ⟨rb', _, h, hbuf, hsize, _, _, hc, _, _⟩ :=
    C20_concurrent_enqueue_race 3 ⟨[Value.nil, Value.nil, Value.nil], 0, 0, 0⟩
      ⟨rfl, by decide, by decide, by decide, fun _ => by decide⟩ (by decide)
      (Value.str "a") (Value.str "b")
  have hc' : contents rb' = [Value.str "b", Value.nil] := hc
  have hbuf' : rb'.buffer = [Value.str "b", Value.nil, Value.nil] := hbuf
  refine ⟨rb', h, hsize, hc', ?_, ?_⟩
  · rw [hc']
    decide
  · rw [hbuf']
    decide

end EventQueue
